import Mathlib

/-!
Verification of the hash-chained audit ledger of the pykg-nic repository.

The ledger core lives in two source variants:
* `src/functions/lib/blockchain.ts` (namespace `V1` below): seven-field hash
  input, plain fetch-hash-insert append, full-chain verifier, paginated reads.
* `src/unnamed/part_003` (namespace `V2` below): eight-field hash input (adds a
  `result` column), append with race detection (re-read of the preceding row,
  delete of the own row and bounded retry), same verifier and reads.
* `src/unnamed/part_012` (namespace `RepairAPI` below): the admin repair
  endpoint, recomputing hashes from a start id against the V2 hash input.
* `src/functions/api/domains.ts` (namespace `DomainsAPI` below): a
  representative event producer calling the append from a business operation.

Both variants hash with SHA-256 over the UTF-8 bytes of a "|"-joined string and
store the lowercase hex digest, so the development starts with an executable
SHA-256 over `Nat` words.
-/

/-! ## SHA-256 over Nat words (the `sha256` helper of both blockchain.ts variants,
which delegates to crypto.subtle.digest over the UTF-8 bytes of the message and
hex-encodes the digest bytes in lowercase). -/

def M32 : Nat := 4294967296

/-- Right rotation of a 32-bit word represented as a Nat below 2^32. -/
def rotr32 (n x : Nat) : Nat :=
  ((x >>> n) ||| (x <<< (32 - n))) % M32

def bigSigma0 (x : Nat) : Nat := (rotr32 2 x) ^^^ (rotr32 13 x) ^^^ (rotr32 22 x)

def bigSigma1 (x : Nat) : Nat := (rotr32 6 x) ^^^ (rotr32 11 x) ^^^ (rotr32 25 x)

def smallSigma0 (x : Nat) : Nat := (rotr32 7 x) ^^^ (rotr32 18 x) ^^^ (x >>> 3)

def smallSigma1 (x : Nat) : Nat := (rotr32 17 x) ^^^ (rotr32 19 x) ^^^ (x >>> 10)

def chF (x y z : Nat) : Nat := (x &&& y) ^^^ ((x ^^^ (M32 - 1)) &&& z)

def majF (x y z : Nat) : Nat := (x &&& y) ^^^ (x &&& z) ^^^ (y &&& z)

/-- The 64 SHA-256 round constants. -/
def K256 : List Nat :=
  [1116352408, 1899447441, 3049323471, 3921009573, 961987163, 1508970993,
   2453635748, 2870763221, 3624381080, 310598401, 607225278, 1426881987,
   1925078388, 2162078206, 2614888103, 3248222580, 3835390401, 4022224774,
   264347078, 604807628, 770255983, 1249150122, 1555081692, 1996064986,
   2554220882, 2821834349, 2952996808, 3210313671, 3336571891, 3584528711,
   113926993, 338241895, 666307205, 773529912, 1294757372, 1396182291,
   1695183700, 1986661051, 2177026350, 2456956037, 2730485921, 2820302411,
   3259730800, 3345764771, 3516065817, 3600352804, 4094571909, 275423344,
   430227734, 506948616, 659060556, 883997877, 958139571, 1322822218,
   1537002063, 1747873779, 1955562222, 2024104815, 2227730452, 2361852424,
   2428436474, 2756734187, 3204031479, 3329325298]

/-- SHA-256 working state: eight 32-bit words. -/
structure Sha2State where
  a : Nat
  b : Nat
  c : Nat
  d : Nat
  e : Nat
  f : Nat
  g : Nat
  h : Nat
deriving DecidableEq

def sha2Init : Sha2State :=
  ⟨1779033703, 3144134277, 1013904242, 2773480762,
   1359893119, 2600822924, 528734635, 1541459225⟩

/-- Message-schedule extension: given the 16 block words (reversed accumulator),
produce words 16..63. The accumulator holds the schedule so far, newest first. -/
def extendW : Nat → List Nat → List Nat
  | 0, acc => acc.reverse
  | n+1, acc =>
    let w2 := acc.getD 1 0
    let w7 := acc.getD 6 0
    let w15 := acc.getD 14 0
    let w16 := acc.getD 15 0
    let w := (smallSigma1 w2 + w7 + smallSigma0 w15 + w16) % M32
    extendW n (w :: acc)

/-- One round of the SHA-256 compression function with precombined K[i]+W[i]. -/
def sha2Round (st : Sha2State) (kw : Nat) : Sha2State :=
  let t1 := (st.h + bigSigma1 st.e + chF st.e st.f st.g + kw) % M32
  let t2 := (bigSigma0 st.a + majF st.a st.b st.c) % M32
  ⟨(t1 + t2) % M32, st.a, st.b, st.c, (st.d + t1) % M32, st.e, st.f, st.g⟩

def addStates (x y : Sha2State) : Sha2State :=
  ⟨(x.a + y.a) % M32, (x.b + y.b) % M32, (x.c + y.c) % M32, (x.d + y.d) % M32,
   (x.e + y.e) % M32, (x.f + y.f) % M32, (x.g + y.g) % M32, (x.h + y.h) % M32⟩

/-- Pack a list of bytes into big-endian 32-bit words (4 bytes per word). -/
def bytesToWords : List Nat → List Nat
  | b0 :: b1 :: b2 :: b3 :: rest =>
    (b0 * 16777216 + b1 * 65536 + b2 * 256 + b3) :: bytesToWords rest
  | _ => []

/-- Compress one 64-byte block (given as 16 words) into the running state. -/
def sha2Block (st : Sha2State) (ws : List Nat) : Sha2State :=
  let sched := extendW 48 ws.reverse
  let kws := List.zipWith (fun k w => (k + w) % M32) K256 sched
  addStates st (kws.foldl sha2Round st)

/-- Split a byte list into 64-byte chunks; fuel-driven so the kernel can
evaluate it (the input is always already padded to a multiple of 64 bytes). -/
def chunks64 : Nat → List Nat → List (List Nat)
  | 0, _ => []
  | _, [] => []
  | fuel+1, l => l.take 64 :: chunks64 fuel (l.drop 64)

/-- SHA-256 padding: append 0x80, zeros, and the 64-bit big-endian bit length. -/
def sha2Pad (msg : List Nat) : List Nat :=
  let len := msg.length
  let zeros := (119 - len % 64) % 64
  let bitLen := len * 8
  msg ++ [128] ++ List.replicate zeros 0 ++
    [bitLen / 72057594037927936 % 256, bitLen / 281474976710656 % 256,
     bitLen / 1099511627776 % 256, bitLen / 4294967296 % 256,
     bitLen / 16777216 % 256, bitLen / 65536 % 256,
     bitLen / 256 % 256, bitLen % 256]

/-- Big-endian bytes of one 32-bit word. -/
def wordBytes (w : Nat) : List Nat :=
  [w / 16777216 % 256, w / 65536 % 256, w / 256 % 256, w % 256]

/-- SHA-256 digest of a byte string, as a list of 32 bytes. -/
def sha256Bytes (msg : List Nat) : List Nat :=
  let padded := sha2Pad msg
  let blocks := chunks64 (padded.length) padded
  let fin := blocks.foldl (fun st blk => sha2Block st (bytesToWords blk)) sha2Init
  wordBytes fin.a ++ wordBytes fin.b ++ wordBytes fin.c ++ wordBytes fin.d ++
    wordBytes fin.e ++ wordBytes fin.f ++ wordBytes fin.g ++ wordBytes fin.h

/-! ## UTF-8 and lowercase hex (TextEncoder().encode and the
`b.toString(16).padStart(2, '0')` mapping of the source `sha256` helper). -/

/-- UTF-8 encoding of one Unicode scalar value (Lean Char excludes surrogates,
matching what a JS TextEncoder emits for well-formed strings). -/
def utf8Char (c : Nat) : List Nat :=
  if c < 128 then [c]
  else if c < 2048 then [192 + c / 64, 128 + c % 64]
  else if c < 65536 then [224 + c / 4096, 128 + c / 64 % 64, 128 + c % 64]
  else [240 + c / 262144, 128 + c / 4096 % 64, 128 + c / 64 % 64, 128 + c % 64]

def utf8Bytes (s : String) : List Nat :=
  s.data.foldr (fun c acc => utf8Char c.toNat ++ acc) []

/-- Lowercase hex digit. -/
def hexDigit (n : Nat) : Char :=
  if n < 10 then Char.ofNat (48 + n) else Char.ofNat (87 + n)

/-- Two lowercase hex digits of a byte (toString(16).padStart(2, '0')). -/
def hexByte (n : Nat) : String :=
  String.mk [hexDigit (n / 16), hexDigit (n % 16)]

def bytesToHex (bs : List Nat) : String :=
  String.join (bs.map hexByte)

/-- The `sha256` helper shared by both blockchain.ts variants: lowercase hex
SHA-256 of the UTF-8 bytes of the message. -/
def sha256hex (s : String) : String :=
  bytesToHex (sha256Bytes (utf8Bytes s))

/-! Standard test vectors, validating the SHA-256 embedding. -/

theorem sha256hex_empty :
    sha256hex "" = "e3b0c44298fc1c149afbf4c8996fb92427ae41e4649b934ca495991b7852b855" := by
  decide

theorem sha256hex_abc :
    sha256hex "abc" = "ba7816bf8f01cfea414140de5dae2223b00361a396177a9cb410ff61f20015ad" := by
  decide

/-! ## Shared result shapes and the injected-fault model of D1 calls.

Every `await db...` call of the source may reject with a storage error; the
model threads a schedule of injected faults, one entry consumed per database
call: `none` means the call succeeds, `some msg` means it throws `msg`. The
empty schedule is the fault-free store. -/

abbrev DbFaults := List (Option String)

def popFault : DbFaults → Option String × DbFaults
  | [] => (none, [])
  | f :: fs => (f, fs)

/-- Return shape of addBlockchainLog in both variants:
`{ success: boolean; blockHash?: string; error?: string }`. -/
structure AddResult where
  success : Bool
  blockHash : Option String
  error : Option String
deriving DecidableEq

/-- Return shape of verifyChain in both variants:
`{ valid: boolean; totalBlocks: number; invalidAt?: number }`. -/
structure VerifyResult where
  valid : Bool
  totalBlocks : Nat
  invalidAt : Option Nat
deriving DecidableEq

/-- JS `x || d` on an optional number treats 0 as absent. -/
def jsOrNat (o : Option Nat) (d : Nat) : Nat :=
  match o with
  | none => d
  | some 0 => d
  | some n => n

/-- JS truthiness of an optional string: null/undefined and "" are falsy. -/
def jsTruthy (o : Option String) : Option String :=
  match o with
  | some "" => none
  | x => x

/-! ## V1: src/functions/lib/blockchain.ts (seven-field hash input, plain
fetch-hash-insert append, full-chain verifier, paginated reads). -/

namespace V1

/-- Row of the blockchain_logs table as selected by this variant (the
created_at column is never read by the ledger code and is omitted). -/
structure BlockchainLog where
  id : Nat
  block_hash : String
  prev_hash : String
  action : String
  actor_name : Option String
  target_type : Option String
  target_name : Option String
  details : Option String
  timestamp : String
deriving DecidableEq

/-- AddLogParams; details carries the JSON.stringify serialization of the
details record (an object is always truthy, and stringify of an object is
never the empty string, so carrying the serialized text loses nothing). -/
structure AddLogParams where
  action : String
  actorName : Option String
  targetType : Option String
  targetName : Option String
  details : Option String
deriving DecidableEq

/-- The blockchain_logs table: rows plus the AUTOINCREMENT counter. The
schema declares id INTEGER PRIMARY KEY AUTOINCREMENT, so ids of deleted rows
are never reused and each insert takes the counter value. -/
structure DB where
  rows : List BlockchainLog
  seq : Nat
deriving DecidableEq

def emptyDB : DB := ⟨[], 1⟩

instance leByIdDec : DecidableRel (fun (a b : BlockchainLog) => a.id ≤ b.id) :=
  fun a b => Nat.decLe a.id b.id

/-- SELECT ... ORDER BY id ASC. -/
def sortById (rows : List BlockchainLog) : List BlockchainLog :=
  rows.insertionSort (fun a b => a.id ≤ b.id)

/-- INSERT INTO blockchain_logs: the store assigns the next id atomically. -/
def insertRow (db : DB) (b : BlockchainLog) : DB :=
  ⟨db.rows ++ [{ b with id := db.seq }], db.seq + 1⟩

/-- calculateBlockHash: SHA-256 over the seven inputs joined with "|",
null optional fields serialized as the empty string. -/
def calculateBlockHash (prevHash action : String)
    (actorName targetType targetName details : Option String)
    (timestamp : String) : String :=
  sha256hex (prevHash ++ "|" ++ action ++ "|" ++ actorName.getD "" ++ "|" ++
    targetType.getD "" ++ "|" ++ targetName.getD "" ++ "|" ++
    details.getD "" ++ "|" ++ timestamp)

/-- getLatestBlockHash: block_hash of the highest-id row, with the JS
`result?.block_hash || '0'` fallback (missing row or falsy hash give "0"). -/
def getLatestBlockHash (db : DB) : String :=
  match (sortById db.rows).getLast? with
  | none => "0"
  | some b => if b.block_hash = "" then "0" else b.block_hash

/-- addBlockchainLog of V1: fetch latest hash, compute, insert; the timestamp
captured by `new Date().toISOString()` is an input of the model. Any storage
fault is caught and returned as `success: false`. -/
def addBlockchainLog (db : DB) (params : AddLogParams) (timestamp : String)
    (fs : DbFaults) : DB × DbFaults × AddResult :=
  match popFault fs with
  | (some e, fs1) => (db, fs1, ⟨false, none, some e⟩)
  | (none, fs1) =>
    let prevHash := getLatestBlockHash db
    let detailsStr := params.details
    let blockHash := calculateBlockHash prevHash params.action params.actorName
      params.targetType params.targetName detailsStr timestamp
    match popFault fs1 with
    | (some e, fs2) => (db, fs2, ⟨false, none, some e⟩)
    | (none, fs2) =>
      (insertRow db ⟨0, blockHash, prevHash, params.action, params.actorName,
        params.targetType, params.targetName, detailsStr, timestamp⟩,
       fs2, ⟨true, some blockHash, none⟩)

/-- Recomputation performed by the verifier for one row, from its stored
fields. -/
def recomputeHash (b : BlockchainLog) : String :=
  calculateBlockHash b.prev_hash b.action b.actor_name b.target_type
    b.target_name b.details b.timestamp

/-- The verification walk of verifyChain: prev_hash link check first, then
the recomputed-hash check; stops at the first failing row and returns its id. -/
def verifyFrom (expected : String) : List BlockchainLog → Option Nat
  | [] => none
  | b :: bs =>
    if b.prev_hash ≠ expected then some b.id
    else if recomputeHash b ≠ b.block_hash then some b.id
    else verifyFrom b.block_hash bs

/-- verifyChain of V1: walk all rows in ascending id order from expected
prev hash "0". -/
def verifyChain (db : DB) : VerifyResult :=
  let results := sortById db.rows
  match verifyFrom "0" results with
  | none => ⟨true, results.length, none⟩
  | some i => ⟨false, results.length, some i⟩

structure GetLogsOptions where
  limit : Option Nat
  offset : Option Nat
  action : Option String
  actorName : Option String
  targetType : Option String

/-- The WHERE clause built by getLogs (JS-truthy filters only). -/
def matchesFilters (options : GetLogsOptions) (b : BlockchainLog) : Bool :=
  (match jsTruthy options.action with
   | some a => b.action == a
   | none => true) &&
  (match jsTruthy options.actorName with
   | some a => b.actor_name == some a
   | none => true) &&
  (match jsTruthy options.targetType with
   | some t => b.target_type == some t
   | none => true)

/-- getLogs: `limit = Math.min(options.limit || 50, 100)`,
`offset = options.offset || 0`, rows ordered by id DESC, plus the
unlimited COUNT(*) of the filtered rows. -/
def getLogs (db : DB) (options : GetLogsOptions) :
    List BlockchainLog × Nat :=
  let limit := min (jsOrNat options.limit 50) 100
  let offset := jsOrNat options.offset 0
  let filtered := (sortById db.rows).filter (matchesFilters options)
  (((filtered.reverse).drop offset).take limit, filtered.length)

end V1

/-! ## Facts about the hex digest shape. -/

theorem hexByte_length (n : Nat) : (hexByte n).length = 2 := rfl

theorem foldl_append_hex_length (bs : List Nat) :
    ∀ acc : String, ((bs.map hexByte).foldl (fun r s => r ++ s) acc).length =
      acc.length + 2 * bs.length := by
  induction bs with
  | nil => intro acc; simp
  | cons b bs ih =>
    intro acc
    simp only [List.map_cons, List.foldl_cons]
    rw [ih, String.length_append, hexByte_length, List.length_cons]
    ring

theorem bytesToHex_length (bs : List Nat) :
    (bytesToHex bs).length = 2 * bs.length := by
  have h := foldl_append_hex_length bs ""
  simpa [bytesToHex, String.join] using h

theorem sha256Bytes_length (msg : List Nat) :
    (sha256Bytes msg).length = 32 := by
  simp [sha256Bytes, wordBytes]

theorem sha256hex_length (s : String) : (sha256hex s).length = 64 := by
  rw [sha256hex, bytesToHex_length, sha256Bytes_length]

theorem sha256hex_ne_empty (s : String) : sha256hex s ≠ "" := by
  intro h
  have h64 := sha256hex_length s
  rw [h] at h64
  exact absurd h64 (by decide)

theorem sha256hex_ne_zero (s : String) : sha256hex s ≠ "0" := by
  intro h
  have h64 := sha256hex_length s
  rw [h] at h64
  exact absurd h64 (by decide)

namespace V1

/-- Running expected hash after walking a row list (the value the verifier
compares the next row's prev_hash against). -/
def endHash (e : String) (rows : List BlockchainLog) : String :=
  rows.foldl (fun _ b => b.block_hash) e

theorem endHash_nil (e : String) : endHash e [] = e := rfl

theorem endHash_cons (e : String) (b : BlockchainLog) (bs : List BlockchainLog) :
    endHash e (b :: bs) = endHash b.block_hash bs := rfl

theorem endHash_getLast {rows : List BlockchainLog} {b : BlockchainLog}
    (h : rows.getLast? = some b) (e : String) : endHash e rows = b.block_hash := by
  induction rows generalizing e with
  | nil => simp at h
  | cons x xs ih =>
    cases xs with
    | nil =>
      simp [List.getLast?] at h
      rw [h, endHash_cons, endHash_nil]
    | cons y ys =>
      rw [List.getLast?_cons_cons] at h
      rw [endHash_cons]
      exact ih h _

theorem verifyFrom_cons_none {e : String} {b : BlockchainLog}
    {bs : List BlockchainLog} :
    verifyFrom e (b :: bs) = none ↔
      b.prev_hash = e ∧ recomputeHash b = b.block_hash ∧
        verifyFrom b.block_hash bs = none := by
  constructor
  · intro h
    rw [verifyFrom] at h
    by_cases h1 : b.prev_hash ≠ e
    · rw [if_pos h1] at h; exact absurd h (by simp)
    · rw [if_neg h1] at h
      by_cases h2 : recomputeHash b ≠ b.block_hash
      · rw [if_pos h2] at h; exact absurd h (by simp)
      · rw [if_neg h2] at h
        exact ⟨not_not.mp h1, not_not.mp h2, h⟩
  · rintro ⟨h1, h2, h3⟩
    rw [verifyFrom, if_neg (by simp [h1]), if_neg (by simp [h2])]
    exact h3

theorem verifyFrom_append_none {xs : List BlockchainLog} :
    ∀ {e : String}, verifyFrom e xs = none → ∀ ys : List BlockchainLog,
      verifyFrom e (xs ++ ys) = verifyFrom (endHash e xs) ys := by
  induction xs with
  | nil => intro e _ ys; rw [List.nil_append, endHash_nil]
  | cons b bs ih =>
    intro e h ys
    obtain ⟨h1, h2, h3⟩ := verifyFrom_cons_none.mp h
    rw [List.cons_append, verifyFrom, if_neg (by simp [h1]),
      if_neg (by simp [h2]), endHash_cons]
    exact ih h3 ys

theorem verifyFrom_append_some {xs : List BlockchainLog} :
    ∀ {e : String} {j : Nat}, verifyFrom e xs = some j →
      ∀ ys : List BlockchainLog, verifyFrom e (xs ++ ys) = some j := by
  induction xs with
  | nil => intro e j h; simp [verifyFrom] at h
  | cons b bs ih =>
    intro e j h ys
    rw [verifyFrom] at h
    rw [List.cons_append, verifyFrom]
    by_cases h1 : b.prev_hash ≠ e
    · rw [if_pos h1] at h ⊢; exact h
    · rw [if_neg h1] at h ⊢
      by_cases h2 : recomputeHash b ≠ b.block_hash
      · rw [if_pos h2] at h ⊢; exact h
      · rw [if_neg h2] at h ⊢
        exact ih h ys

theorem verifyFrom_append_none_inv {xs : List BlockchainLog} :
    ∀ {e : String} {ys : List BlockchainLog},
      verifyFrom e (xs ++ ys) = none → verifyFrom e xs = none := by
  induction xs with
  | nil => intro e ys _; rfl
  | cons b bs ih =>
    intro e ys h
    rw [List.cons_append, verifyFrom] at h
    by_cases h1 : b.prev_hash ≠ e
    · rw [if_pos h1] at h; exact absurd h (by simp)
    · rw [if_neg h1] at h
      by_cases h2 : recomputeHash b ≠ b.block_hash
      · rw [if_pos h2] at h; exact absurd h (by simp)
      · rw [if_neg h2] at h
        rw [verifyFrom, if_neg h1, if_neg h2]
        exact ih h

theorem sortById_eq {rows : List BlockchainLog}
    (h : rows.Pairwise (fun a b => a.id < b.id)) : sortById rows = rows :=
  List.Sorted.insertionSort_eq (h.imp fun hab => Nat.le_of_lt hab)

theorem getLatest_eq_endHash {db : DB}
    (hs : db.rows.Pairwise (fun a b => a.id < b.id))
    (hh : ∀ b ∈ db.rows, b.block_hash.length = 64) :
    getLatestBlockHash db = endHash "0" db.rows := by
  rw [getLatestBlockHash, sortById_eq hs]
  cases hlast : db.rows.getLast? with
  | none =>
    rw [List.getLast?_eq_none_iff] at hlast
    rw [hlast, endHash_nil]
  | some b =>
    have hb : b ∈ db.rows := by
      obtain ⟨hne, heq⟩ := List.mem_getLast?_eq_getLast (Option.mem_def.mpr hlast)
      rw [heq]
      exact List.getLast_mem hne
    have h64 := hh b hb
    show (if b.block_hash = "" then "0" else b.block_hash) = endHash "0" db.rows
    rw [if_neg (by intro h0; rw [h0] at h64; exact absurd h64 (by decide)),
      endHash_getLast hlast]
end V1

namespace V1

/-- One fault-free record_event call (addBlockchainLog with the fault-free
store), returning the updated table. -/
def appendOnce (db : DB) (c : AddLogParams × String) : DB :=
  (addBlockchainLog db c.1 c.2 []).1

/-- A sequence of fault-free sequential record_event calls from a given
table state. -/
def appendAll (db : DB) (calls : List (AddLogParams × String)) : DB :=
  calls.foldl appendOnce db

/-- Invariant of a table produced solely by sequential appends: ids strictly
increase, stay below the AUTOINCREMENT counter, the verification walk passes
from the genesis sentinel, and every stored hash is a 64-char digest. -/
def GoodChain (db : DB) : Prop :=
  db.rows.Pairwise (fun a b => a.id < b.id) ∧
  (∀ b ∈ db.rows, b.id < db.seq) ∧
  verifyFrom "0" db.rows = none ∧
  (∀ b ∈ db.rows, b.block_hash.length = 64)

theorem emptyDB_good : GoodChain emptyDB :=
  ⟨List.Pairwise.nil, by intro b hb; exact absurd hb (List.not_mem_nil b),
   rfl, by intro b hb; exact absurd hb (List.not_mem_nil b)⟩

theorem appendOnce_good {db : DB} (h : GoodChain db) (c : AddLogParams × String) :
    GoodChain (appendOnce db c) ∧
      (appendOnce db c).rows.length = db.rows.length + 1 := by
  obtain ⟨hpw, hbound, hverify, hlen64⟩ := h
  obtain ⟨p, ts⟩ := c
  set newRow : BlockchainLog :=
    ⟨db.seq,
     calculateBlockHash (getLatestBlockHash db) p.action p.actorName
       p.targetType p.targetName p.details ts,
     getLatestBlockHash db, p.action, p.actorName, p.targetType,
     p.targetName, p.details, ts⟩ with hnew
  have hres : appendOnce db (p, ts) = ⟨db.rows ++ [newRow], db.seq + 1⟩ := rfl
  rw [hres]
  refine ⟨⟨?_, ?_, ?_, ?_⟩, by simp⟩
  · rw [List.pairwise_append]
    refine ⟨hpw, List.pairwise_singleton _ _, ?_⟩
    intro a ha b hb
    rw [List.mem_singleton] at hb
    rw [hb, hnew]
    exact hbound a ha
  · intro b hb
    rcases List.mem_append.mp hb with hb | hb
    · exact Nat.lt_succ_of_lt (hbound b hb)
    · rw [List.mem_singleton] at hb
      rw [hb, hnew]
      exact Nat.lt_succ_self _
  · rw [verifyFrom_append_none hverify]
    apply verifyFrom_cons_none.mpr
    refine ⟨?_, ?_, rfl⟩
    · show getLatestBlockHash db = endHash "0" db.rows
      exact getLatest_eq_endHash hpw hlen64
    · rfl
  · intro b hb
    rcases List.mem_append.mp hb with hb | hb
    · exact hlen64 b hb
    · rw [List.mem_singleton] at hb
      rw [hb, hnew]
      exact sha256hex_length _

theorem appendAll_good :
    ∀ (calls : List (AddLogParams × String)) (db : DB), GoodChain db →
      GoodChain (appendAll db calls) ∧
        (appendAll db calls).rows.length = db.rows.length + calls.length := by
  intro calls
  induction calls with
  | nil => intro db h; exact ⟨h, by simp [appendAll]⟩
  | cons c cs ih =>
    intro db h
    obtain ⟨h1, h1len⟩ := appendOnce_good h c
    obtain ⟨h2, h2len⟩ := ih (appendOnce db c) h1
    refine ⟨h2, ?_⟩
    have : appendAll db (c :: cs) = appendAll (appendOnce db c) cs := rfl
    rw [this, h2len, h1len, List.length_cons]
    ring

end V1

/-- Claim C1 (invariants): a ledger built from the empty store by any sequence
of successful sequential record_event (addBlockchainLog) calls, with no repair
and no out-of-band mutation, makes verify_chain report valid with a
total-checked count equal to the number of appended entries. -/
theorem C1_chain_integrity (calls : List (V1.AddLogParams × String)) :
    V1.verifyChain (V1.appendAll V1.emptyDB calls) =
      ⟨true, calls.length, none⟩ := by
  obtain ⟨⟨hpw, _, hverify, _⟩, hlen⟩ :=
    V1.appendAll_good calls V1.emptyDB V1.emptyDB_good
  rw [V1.verifyChain, V1.sortById_eq hpw, hverify, hlen]
  simp [V1.emptyDB]

/-- Claim C2 (functional correctness): appending an event to an empty ledger
produces a single entry with sequence id 1, prev_hash the sentinel "0", and
block_hash the lowercase hex SHA-256 of the UTF-8 bytes of the seven inputs
prev_hash, action, actor_name, target_type, target_name, serialized details,
timestamp joined with "|", null/absent optional fields serialized as "". -/
theorem C2_genesis_hash (action : String)
    (actorName targetType targetName details : Option String)
    (timestamp : String) :
    (V1.addBlockchainLog V1.emptyDB
        ⟨action, actorName, targetType, targetName, details⟩ timestamp []).2.2 =
      ⟨true,
       some (bytesToHex (sha256Bytes (utf8Bytes
         ("0" ++ "|" ++ action ++ "|" ++ actorName.getD "" ++ "|" ++
          targetType.getD "" ++ "|" ++ targetName.getD "" ++ "|" ++
          details.getD "" ++ "|" ++ timestamp)))), none⟩ ∧
    (V1.addBlockchainLog V1.emptyDB
        ⟨action, actorName, targetType, targetName, details⟩ timestamp []).1.rows.map
        (fun b => (b.id, b.prev_hash, b.block_hash)) =
      [(1, "0", sha256hex
         ("0" ++ "|" ++ action ++ "|" ++ actorName.getD "" ++ "|" ++
          targetType.getD "" ++ "|" ++ targetName.getD "" ++ "|" ++
          details.getD "" ++ "|" ++ timestamp))] :=
  ⟨rfl, rfl⟩

theorem list_map_self {α : Type} {f : α → α} :
    ∀ {l : List α}, (∀ x ∈ l, f x = x) → l.map f = l := by
  intro l
  induction l with
  | nil => intro _; rfl
  | cons x xs ih =>
    intro h
    rw [List.map_cons, h x (List.mem_cons_self x xs),
      ih fun y hy => h y (List.mem_cons_of_mem x hy)]

namespace V1

/-- Out-of-band mutation of the stored details field of the entry with
sequence id k (the hash fields are left as they were). -/
def alterDetails (db : DB) (k : Nat) (d : Option String) : DB :=
  { db with rows := db.rows.map fun b =>
      if b.id = k then { b with details := d } else b }

theorem getLogs_length_le (db : DB) (options : GetLogsOptions) :
    (getLogs db options).1.length ≤ min (jsOrNat options.limit 50) 100 := by
  show ((((sortById db.rows).filter
      (matchesFilters options)).reverse.drop
        (jsOrNat options.offset 0)).take
          (min (jsOrNat options.limit 50) 100)).length ≤ _
  exact List.length_take_le _ _

end V1

/-- Claim C4 (functional correctness): in a ledger satisfying the chain
invariants, altering the stored details of the entry with sequence id k so
that the recomputed hash no longer matches makes verify_chain report
valid = false with k as the first invalid id (the walk passes every earlier
entry and stops at k). -/
theorem C4_tamper_first_invalid (db : V1.DB) (pre suf : List V1.BlockchainLog)
    (b : V1.BlockchainLog) (k : Nat) (d : Option String)
    (hpw : db.rows.Pairwise (fun a b => a.id < b.id))
    (hsplit : db.rows = pre ++ b :: suf)
    (hbk : b.id = k)
    (hv : V1.verifyChain db = ⟨true, db.rows.length, none⟩)
    (hdiff : V1.calculateBlockHash b.prev_hash b.action b.actor_name
      b.target_type b.target_name d b.timestamp ≠ b.block_hash) :
    V1.verifyChain (V1.alterDetails db k d) =
      ⟨false, db.rows.length, some k⟩ := by
  have hsort := V1.sortById_eq hpw
  rw [V1.verifyChain, hsort] at hv
  have hverify : V1.verifyFrom "0" db.rows = none := by
    cases hcase : V1.verifyFrom "0" db.rows with
    | none => rfl
    | some i =>
      rw [hcase] at hv
      simp at hv
  rw [hsplit] at hpw
  obtain ⟨hpreP, hbsufP, hcross⟩ := List.pairwise_append.mp hpw
  have hpre_lt : ∀ x ∈ pre, x.id < k := fun x hx =>
    hbk ▸ hcross x hx b (List.mem_cons_self b suf)
  have hsuf_gt : ∀ x ∈ suf, k < x.id := fun x hx =>
    hbk ▸ (List.pairwise_cons.mp hbsufP).1 x hx
  have halter : (V1.alterDetails db k d).rows =
      pre ++ ({ b with details := d } : V1.BlockchainLog) :: suf := by
    show db.rows.map _ = _
    rw [hsplit, List.map_append, List.map_cons]
    have h1 : pre.map (fun x : V1.BlockchainLog =>
        if x.id = k then { x with details := d } else x) = pre :=
      list_map_self fun x hx => if_neg (Nat.ne_of_lt (hpre_lt x hx))
    have h2 : suf.map (fun x : V1.BlockchainLog =>
        if x.id = k then { x with details := d } else x) = suf :=
      list_map_self fun x hx => if_neg (Nat.ne_of_gt (hsuf_gt x hx))
    rw [h1, h2, if_pos hbk]
  have hpre_none : V1.verifyFrom "0" pre = none := by
    rw [hsplit] at hverify
    exact V1.verifyFrom_append_none_inv hverify
  have htail : V1.verifyFrom (V1.endHash "0" pre) (b :: suf) = none := by
    rw [hsplit, V1.verifyFrom_append_none hpre_none] at hverify
    exact hverify
  obtain ⟨hblink, _, _⟩ := V1.verifyFrom_cons_none.mp htail
  have hpw' : (V1.alterDetails db k d).rows.Pairwise
      (fun a b => a.id < b.id) := by
    rw [halter]
    refine List.pairwise_append.mpr ⟨hpreP, ?_, ?_⟩
    · rw [List.pairwise_cons] at hbsufP ⊢
      exact ⟨fun x hx => hbsufP.1 x hx, hbsufP.2⟩
    · intro a ha x hx
      rcases List.mem_cons.mp hx with hx | hx
      · rw [hx]
        exact hcross a ha b (List.mem_cons_self b suf)
      · exact hcross a ha x (List.mem_cons_of_mem b hx)
  rw [V1.verifyChain, V1.sortById_eq hpw', halter,
    V1.verifyFrom_append_none hpre_none, V1.verifyFrom]
  have hprev : ({ b with details := d } : V1.BlockchainLog).prev_hash =
      V1.endHash "0" pre := hblink
  rw [if_neg (by simp [hprev, hblink]), if_pos (by exact hdiff)]
  have hlen : (pre ++ ({ b with details := d } : V1.BlockchainLog) :: suf).length
      = db.rows.length := by
    rw [hsplit]
    simp
  rw [hlen]
  show VerifyResult.mk false db.rows.length (some b.id) = _
  rw [hbk]

/-- Concrete two-entry ledger used to witness C4. -/
def c4Calls : List (V1.AddLogParams × String) :=
  [(⟨"domain_register", some "alice", some "domain", some "alice.example",
     some "amount10"⟩, "2024-01-01T00:00:00.000Z"),
   (⟨"domain_approve", some "bob", some "domain", some "alice.example",
     none⟩, "2024-01-01T00:01:00.000Z")]

def c4db : V1.DB := V1.appendAll V1.emptyDB c4Calls

def blankBlock : V1.BlockchainLog := ⟨0, "", "", "", none, none, none, none, ""⟩

set_option maxRecDepth 100000 in
/-- Witness for C4 at a concrete two-entry ledger with entry 2 tampered. -/
theorem C4_tamper_first_invalid_witness :
    V1.verifyChain (V1.alterDetails c4db 2 (some "tampered")) =
      ⟨false, c4db.rows.length, some 2⟩ :=
  C4_tamper_first_invalid c4db (c4db.rows.take 1) []
    (c4db.rows.getD 1 blankBlock) 2 (some "tampered")
    (by decide) (by decide) (by decide) (by decide) (by decide)

/-- One-row ledger used for the C10 counterexample (getLogs never recomputes
hashes, so placeholder hash strings suffice). -/
def c10db : V1.DB := ⟨[⟨1, "h1", "0", "a", none, none, none, none, "t1"⟩], 2⟩

/-- Claim C10 as stated is false at requested limit 0: the code computes
`Math.min(options.limit || 50, 100)` and JS `||` treats 0 as absent, so a
one-row ledger returns one entry although min(requested, 100) = 0. -/
theorem C10_limit_zero_cex :
    (V1.getLogs c10db ⟨some 0, none, none, none, none⟩).1.length = 1 ∧
      ¬((V1.getLogs c10db ⟨some 0, none, none, none, none⟩).1.length ≤
        min 0 100) := by
  decide

/-- Claim C10 amended: for every call passing a positive limit, the number of
returned entries is at most min(limit, 100); a call with no limit, or with the
JS-falsy limit 0, uses the default page size 50. -/
theorem C10_page_cap (db : V1.DB) (options : V1.GetLogsOptions) :
    (∀ l, options.limit = some l → 0 < l →
      (V1.getLogs db options).1.length ≤ min l 100) ∧
    ((options.limit = none ∨ options.limit = some 0) →
      (V1.getLogs db options).1.length ≤ 50) := by
  have hle := V1.getLogs_length_le db options
  constructor
  · intro l hl hpos
    rw [hl] at hle
    cases l with
    | zero => exact absurd hpos (by decide)
    | succ m => exact hle
  · intro hcase
    rcases hcase with hc | hc <;> rw [hc] at hle <;>
      simpa [jsOrNat] using hle

/-- Witness for the amended C10 at a concrete call with limit 3. -/
theorem C10_page_cap_witness :
    (V1.getLogs c10db ⟨some 3, none, none, none, none⟩).1.length ≤ min 3 100 :=
  (C10_page_cap c10db ⟨some 3, none, none, none, none⟩).1 3 rfl (by decide)

/-! ## V2: src/unnamed/part_003 (eight-field hash input with a result column
and race-detecting append with bounded retry). -/

namespace V2

/-- Row of blockchain_logs as read by this variant (includes result). -/
structure BlockchainLog where
  id : Nat
  block_hash : String
  prev_hash : String
  action : String
  actor_name : Option String
  target_type : Option String
  target_name : Option String
  result : Option String
  details : Option String
  timestamp : String
deriving DecidableEq

structure AddLogParams where
  action : String
  actorName : Option String
  targetType : Option String
  targetName : Option String
  result : Option String
  details : Option String
deriving DecidableEq

/-- blockchain_logs with the AUTOINCREMENT counter (deleted ids are not
reused; each insert consumes the counter). -/
structure DB where
  rows : List BlockchainLog
  seq : Nat
deriving DecidableEq

def emptyDB : DB := ⟨[], 1⟩

instance leByIdDec : DecidableRel (fun (a b : BlockchainLog) => a.id ≤ b.id) :=
  fun a b => Nat.decLe a.id b.id

/-- SELECT ... ORDER BY id ASC. -/
def sortById (rows : List BlockchainLog) : List BlockchainLog :=
  rows.insertionSort (fun a b => a.id ≤ b.id)

/-- calculateBlockHash of V2: eight inputs joined with "|". -/
def calculateBlockHash (prevHash action : String)
    (actorName targetType targetName result details : Option String)
    (timestamp : String) : String :=
  sha256hex (prevHash ++ "|" ++ action ++ "|" ++ actorName.getD "" ++ "|" ++
    targetType.getD "" ++ "|" ++ targetName.getD "" ++ "|" ++
    result.getD "" ++ "|" ++ details.getD "" ++ "|" ++ timestamp)

def getLatestBlockHash (db : DB) : String :=
  match (sortById db.rows).getLast? with
  | none => "0"
  | some b => if b.block_hash = "" then "0" else b.block_hash

/-- SELECT * WHERE block_hash = ? .first(): the query has no ORDER BY and
SQLite scans in rowid order, so the lowest-id match is returned. -/
def firstByHash (db : DB) (h : String) : Option BlockchainLog :=
  (sortById db.rows).find? (fun b => b.block_hash == h)

/-- SELECT * WHERE id = ? .first(). -/
def byId (db : DB) (i : Nat) : Option BlockchainLog :=
  (sortById db.rows).find? (fun b => b.id == i)

def insertRow (db : DB) (b : BlockchainLog) : DB :=
  ⟨db.rows ++ [{ b with id := db.seq }], db.seq + 1⟩

/-- DELETE FROM blockchain_logs WHERE id = ? (the AUTOINCREMENT counter is
untouched, so the deleted id is never handed out again). -/
def deleteById (db : DB) (i : Nat) : DB :=
  ⟨db.rows.filter (fun b => b.id != i), db.seq⟩

def MAX_RETRIES : Nat := 5

/-- The retry loop of V2 addBlockchainLog, sequential rendering: one database
call per await, each consuming one fault-schedule entry; any throw is caught
and either retried (attempt < MAX_RETRIES-1) or returned as a failure.
tss gives the `new Date().toISOString()` captured at each attempt. The fuel
argument equals MAX_RETRIES - attempt and makes the recursion structural;
the fuel-0 base case is the `return` after the loop in the source. -/
def addBlockchainLogGo (params : AddLogParams) (tss : List String) :
    Nat → Nat → DB → DbFaults → DB × DbFaults × AddResult
  | _, 0, db, fs => (db, fs, ⟨false, none, some "Failed after max retries"⟩)
  | attempt, fuel+1, db, fs =>
    let timestamp := tss.getD attempt ""
    match popFault fs with
    | (some e, fs1) =>
      if attempt = MAX_RETRIES - 1 then (db, fs1, ⟨false, none, some e⟩)
      else addBlockchainLogGo params tss (attempt+1) fuel db fs1
    | (none, fs1) =>
      let prevHash := getLatestBlockHash db
      let detailsStr := params.details
      let resultStr := params.result.getD "success"
      let blockHash := calculateBlockHash prevHash params.action
        params.actorName params.targetType params.targetName
        (some resultStr) detailsStr timestamp
      match popFault fs1 with
      | (some e, fs2) =>
        if attempt = MAX_RETRIES - 1 then (db, fs2, ⟨false, none, some e⟩)
        else addBlockchainLogGo params tss (attempt+1) fuel db fs2
      | (none, fs2) =>
        let db1 := insertRow db ⟨0, blockHash, prevHash, params.action,
          params.actorName, params.targetType, params.targetName,
          some resultStr, detailsStr, timestamp⟩
        match popFault fs2 with
        | (some e, fs3) =>
          if attempt = MAX_RETRIES - 1 then (db1, fs3, ⟨false, none, some e⟩)
          else addBlockchainLogGo params tss (attempt+1) fuel db1 fs3
        | (none, fs3) =>
          match firstByHash db1 blockHash with
          | none =>
            if attempt = MAX_RETRIES - 1 then
              (db1, fs3, ⟨false, none, some "Failed to verify inserted block"⟩)
            else addBlockchainLogGo params tss (attempt+1) fuel db1 fs3
          | some insertedBlock =>
            if insertedBlock.id > 1 then
              match popFault fs3 with
              | (some e, fs4) =>
                if attempt = MAX_RETRIES - 1 then (db1, fs4, ⟨false, none, some e⟩)
                else addBlockchainLogGo params tss (attempt+1) fuel db1 fs4
              | (none, fs4) =>
                match byId db1 (insertedBlock.id - 1) with
                | some actualPrevBlock =>
                  if actualPrevBlock.block_hash ≠ insertedBlock.prev_hash then
                    match popFault fs4 with
                    | (some e, fs5) =>
                      if attempt = MAX_RETRIES - 1 then (db1, fs5, ⟨false, none, some e⟩)
                      else addBlockchainLogGo params tss (attempt+1) fuel db1 fs5
                    | (none, fs5) =>
                      let db2 := deleteById db1 insertedBlock.id
                      if attempt < MAX_RETRIES - 1 then
                        addBlockchainLogGo params tss (attempt+1) fuel db2 fs5
                      else
                        (db2, fs5, ⟨false, none,
                          some "Max retries reached due to race conditions"⟩)
                  else (db1, fs4, ⟨true, some blockHash, none⟩)
                | none => (db1, fs4, ⟨true, some blockHash, none⟩)
            else (db1, fs3, ⟨true, some blockHash, none⟩)

/-- addBlockchainLog of V2 (record_event): the full bounded-retry call. -/
def addBlockchainLog (db : DB) (params : AddLogParams) (tss : List String)
    (fs : DbFaults) : DB × DbFaults × AddResult :=
  addBlockchainLogGo params tss 0 MAX_RETRIES db fs

def recomputeHash (b : BlockchainLog) : String :=
  calculateBlockHash b.prev_hash b.action b.actor_name b.target_type
    b.target_name b.result b.details b.timestamp

def verifyFrom (expected : String) : List BlockchainLog → Option Nat
  | [] => none
  | b :: bs =>
    if b.prev_hash ≠ expected then some b.id
    else if recomputeHash b ≠ b.block_hash then some b.id
    else verifyFrom b.block_hash bs

/-- verifyChain of V2 (identical walk, recomputing with the result column). -/
def verifyChain (db : DB) : VerifyResult :=
  match verifyFrom "0" (sortById db.rows) with
  | none => ⟨true, (sortById db.rows).length, none⟩
  | some i => ⟨false, (sortById db.rows).length, some i⟩

end V2

/-- Well-formed shape of an addBlockchainLog result object: success carries a
block hash and no error, failure carries an error message and no hash. -/
def ResOk (r : AddResult) : Prop :=
  (r.success = true ∧ r.error = none ∧ ∃ h, r.blockHash = some h) ∨
  (r.success = false ∧ r.blockHash = none ∧ ∃ e, r.error = some e)

theorem addGo_resOk (params : V2.AddLogParams) (tss : List String) :
    ∀ (fuel attempt : Nat) (db : V2.DB) (fs : DbFaults),
      ResOk (V2.addBlockchainLogGo params tss attempt fuel db fs).2.2 := by
  intro fuel
  induction fuel with
  | zero =>
    intro attempt db fs
    right
    exact ⟨rfl, rfl, _, rfl⟩
  | succ n ih =>
    intro attempt db fs
    rw [V2.addBlockchainLogGo]
    repeat' first
      | exact ih _ _ _
      | exact Or.inl ⟨rfl, rfl, _, rfl⟩
      | exact Or.inr ⟨rfl, rfl, _, rfl⟩
      | split
      | dsimp only

/-- Claim C9 (error handling): record_event (addBlockchainLog) never throws:
for every input and every store behaviour, including storage-layer
exceptions injected at any call, both source variants return a result
object, with success=false and an error message on failure and success=true
with the new block hash on success. -/
theorem C9_add_never_throws (dbA : V1.DB) (pA : V1.AddLogParams) (ts : String)
    (fsA : DbFaults) (dbB : V2.DB) (pB : V2.AddLogParams) (tss : List String)
    (fsB : DbFaults) :
    ResOk (V1.addBlockchainLog dbA pA ts fsA).2.2 ∧
      ResOk (V2.addBlockchainLog dbB pB tss fsB).2.2 := by
  constructor
  · rw [V1.addBlockchainLog]
    repeat' first
      | exact Or.inl ⟨rfl, rfl, _, rfl⟩
      | exact Or.inr ⟨rfl, rfl, _, rfl⟩
      | split
  · exact addGo_resOk pB tss V2.MAX_RETRIES 0 dbB fsB

namespace V2

def endHash (e : String) (rows : List BlockchainLog) : String :=
  rows.foldl (fun _ b => b.block_hash) e

theorem endHash_nil2 (e : String) : endHash e [] = e := rfl

theorem endHash_cons2 (e : String) (b : BlockchainLog) (bs : List BlockchainLog) :
    endHash e (b :: bs) = endHash b.block_hash bs := rfl

theorem endHash_getLast2 {rows : List BlockchainLog} {b : BlockchainLog}
    (h : rows.getLast? = some b) (e : String) : endHash e rows = b.block_hash := by
  induction rows generalizing e with
  | nil => simp at h
  | cons x xs ih =>
    cases xs with
    | nil =>
      simp [List.getLast?] at h
      rw [h, endHash_cons2, endHash_nil2]
    | cons y ys =>
      rw [List.getLast?_cons_cons] at h
      rw [endHash_cons2]
      exact ih h _

theorem verifyFrom_cons_none2 {e : String} {b : BlockchainLog}
    {bs : List BlockchainLog} :
    verifyFrom e (b :: bs) = none ↔
      b.prev_hash = e ∧ recomputeHash b = b.block_hash ∧
        verifyFrom b.block_hash bs = none := by
  constructor
  · intro h
    rw [verifyFrom] at h
    by_cases h1 : b.prev_hash ≠ e
    · rw [if_pos h1] at h; exact absurd h (by simp)
    · rw [if_neg h1] at h
      by_cases h2 : recomputeHash b ≠ b.block_hash
      · rw [if_pos h2] at h; exact absurd h (by simp)
      · rw [if_neg h2] at h
        exact ⟨not_not.mp h1, not_not.mp h2, h⟩
  · rintro ⟨h1, h2, h3⟩
    rw [verifyFrom, if_neg (by simp [h1]), if_neg (by simp [h2])]
    exact h3

theorem verifyFrom_append_none2 {xs : List BlockchainLog} :
    ∀ {e : String}, verifyFrom e xs = none → ∀ ys : List BlockchainLog,
      verifyFrom e (xs ++ ys) = verifyFrom (endHash e xs) ys := by
  induction xs with
  | nil => intro e _ ys; rw [List.nil_append, endHash_nil2]
  | cons b bs ih =>
    intro e h ys
    obtain ⟨h1, h2, h3⟩ := verifyFrom_cons_none2.mp h
    rw [List.cons_append, verifyFrom, if_neg (by simp [h1]),
      if_neg (by simp [h2]), endHash_cons2]
    exact ih h3 ys

theorem verifyFrom_append_none_inv2 {xs : List BlockchainLog} :
    ∀ {e : String} {ys : List BlockchainLog},
      verifyFrom e (xs ++ ys) = none → verifyFrom e xs = none := by
  induction xs with
  | nil => intro e ys _; rfl
  | cons b bs ih =>
    intro e ys h
    rw [List.cons_append, verifyFrom] at h
    by_cases h1 : b.prev_hash ≠ e
    · rw [if_pos h1] at h; exact absurd h (by simp)
    · rw [if_neg h1] at h
      by_cases h2 : recomputeHash b ≠ b.block_hash
      · rw [if_pos h2] at h; exact absurd h (by simp)
      · rw [if_neg h2] at h
        rw [verifyFrom, if_neg h1, if_neg h2]
        exact ih h

/-- A failed walk decomposes into a passing prefix and a first failing row. -/
theorem verifyFrom_some_split {rows : List BlockchainLog} :
    ∀ {e : String} {j : Nat}, verifyFrom e rows = some j →
      ∃ pre b suf, rows = pre ++ b :: suf ∧ verifyFrom e pre = none ∧
        b.id = j ∧
        (b.prev_hash ≠ endHash e pre ∨ recomputeHash b ≠ b.block_hash) := by
  induction rows with
  | nil => intro e j h; exact absurd h (by simp [verifyFrom])
  | cons x xs ih =>
    intro e j h
    rw [verifyFrom] at h
    by_cases h1 : x.prev_hash ≠ e
    · rw [if_pos h1] at h
      refine ⟨[], x, xs, rfl, rfl, by simpa using h, Or.inl ?_⟩
      rw [endHash_nil2]
      exact h1
    · rw [if_neg h1] at h
      by_cases h2 : recomputeHash x ≠ x.block_hash
      · rw [if_pos h2] at h
        exact ⟨[], x, xs, rfl, rfl, by simpa using h, Or.inr h2⟩
      · rw [if_neg h2] at h
        obtain ⟨pre, b, suf, hs, hpre, hbj, hfail⟩ := ih h
        refine ⟨x :: pre, b, suf, by rw [hs, List.cons_append], ?_, hbj, ?_⟩
        · exact verifyFrom_cons_none2.mpr ⟨not_not.mp h1, not_not.mp h2, hpre⟩
        · rw [endHash_cons2]
          exact hfail

theorem sortById_eq2 {rows : List BlockchainLog}
    (h : rows.Pairwise (fun a b => a.id < b.id)) : sortById rows = rows :=
  List.Sorted.insertionSort_eq (h.imp fun hab => Nat.le_of_lt hab)

/-- find? by id returns the unique row carrying that id. -/
theorem find_by_id :
    ∀ {rows : List BlockchainLog} {m : Nat} {x : BlockchainLog},
      (rows.map (fun b => b.id)).Nodup → x ∈ rows → x.id = m →
        rows.find? (fun b => b.id == m) = some x := by
  intro rows
  induction rows with
  | nil => intro m x _ hx _; exact absurd hx (List.not_mem_nil x)
  | cons y ys ih =>
    intro m x hnd hx hxid
    rw [List.map_cons, List.nodup_cons] at hnd
    rcases List.mem_cons.mp hx with rfl | hx'
    · rw [List.find?_cons_of_pos _ (by simp [hxid])]
    · have hyne : y.id ≠ m := by
        intro hy
        exact hnd.1 (hy ▸ hxid ▸ List.mem_map_of_mem (fun b => b.id) hx')
      rw [List.find?_cons_of_neg _ (by simp [hyne])]
      exact ih hnd.2 hx' hxid

end V2

/-! ## RepairAPI: src/unnamed/part_012, the POST /api/admin/repair-blockchain
endpoint (modelled after requireAdmin and body parsing: the parsed optional
startFromId and dryRun fields are inputs; storage calls are assumed to
succeed, the catch-all 500 path being unreachable then). -/

namespace RepairAPI

/-- A pending change recorded by the repair loop. -/
structure RepairUpdate where
  id : Nat
  oldHash : String
  newHash : String
  oldPrev : String
  newPrev : String
deriving DecidableEq

/-- One `{from, to, changed}` display triple of the dry-run report. -/
structure DisplayChange where
  fromHash : String
  toHash : String
  changed : Bool
deriving DecidableEq

structure DisplayUpdate where
  id : Nat
  prevChange : DisplayChange
  hashChange : DisplayChange
deriving DecidableEq

/-- `substring(0, 16) + '...'` used in the dry-run report. -/
def trunc16 (s : String) : String := s.take 16 ++ "..."

def displayUpdate (u : RepairUpdate) : DisplayUpdate :=
  ⟨u.id,
   ⟨trunc16 u.oldPrev, trunc16 u.newPrev, u.oldPrev != u.newPrev⟩,
   ⟨trunc16 u.oldHash, trunc16 u.newHash, u.oldHash != u.newHash⟩⟩

/-- Responses of the endpoint: success 'No blocks to repair', the
errorResponse for a missing anchor, the dry-run report, and the applied
summary. -/
inductive RepairResp where
  | noBlocks
  | missingAnchor
  | dryRunReport (blocksToRepair totalBlocks : Nat)
      (updates : List DisplayUpdate)
  | applied (repaired totalBlocks startedFrom : Nat)
deriving DecidableEq

/-- errorResponse is only returned on the missing-anchor branch. -/
def RepairResp.isError : RepairResp → Bool
  | .missingAnchor => true
  | _ => false

/-- The newBlockHash each iteration of the repair loop computes:
calculateBlockHash over the running currentPrevHash and the block's own
stored event fields. -/
def recomputeWith (prev : String) (b : V2.BlockchainLog) : String :=
  V2.calculateBlockHash prev b.action b.actor_name b.target_type
    b.target_name b.result b.details b.timestamp

/-- The hash-recomputation loop: walk the blocks in ascending id order with a
running currentPrevHash, record a pending change whenever the stored
prev_hash or block_hash differs, and always advance the running hash to the
recomputed value. -/
def repairCalc (prev : String) : List V2.BlockchainLog → List RepairUpdate
  | [] => []
  | b :: bs =>
    if b.prev_hash ≠ prev ∨ b.block_hash ≠ recomputeWith prev b then
      ⟨b.id, b.block_hash, recomputeWith prev b, b.prev_hash, prev⟩ ::
        repairCalc (recomputeWith prev b) bs
    else repairCalc (recomputeWith prev b) bs

/-- UPDATE blockchain_logs SET block_hash = ?, prev_hash = ? WHERE id = ?. -/
def applyUpdate (rows : List V2.BlockchainLog) (u : RepairUpdate) :
    List V2.BlockchainLog :=
  rows.map fun b =>
    if b.id = u.id then { b with block_hash := u.newHash, prev_hash := u.newPrev }
    else b

/-- The non-dry-run apply loop, one UPDATE per pending change in order. -/
def applyUpdates (rows : List V2.BlockchainLog) (us : List RepairUpdate) :
    List V2.BlockchainLog :=
  us.foldl applyUpdate rows

/-- onRequestPost of the repair endpoint, after admin auth and body parsing:
`startFromId = body.startFromId || 141`, `dryRun = body.dryRun ?? true`. -/
def onRequestPost (db : V2.DB) (bodyStartFromId : Option Nat)
    (bodyDryRun : Option Bool) : V2.DB × RepairResp :=
  let startFromId := jsOrNat bodyStartFromId 141
  let dryRun := bodyDryRun.getD true
  let blocksToRepair := (V2.sortById db.rows).filter
    (fun b => decide (startFromId ≤ b.id))
  if blocksToRepair.isEmpty then (db, .noBlocks)
  else
    match V2.byId db (startFromId - 1) with
    | none => (db, .missingAnchor)
    | some prevBlock =>
      let updates := repairCalc prevBlock.block_hash blocksToRepair
      if dryRun then
        (db, .dryRunReport updates.length blocksToRepair.length
          (updates.map displayUpdate))
      else
        ({ db with rows := applyUpdates db.rows updates },
         .applied updates.length blocksToRepair.length startFromId)

end RepairAPI

/-- Claim C6 (frame/effect): a repair invocation with dry_run = true, or with
dry_run absent (it defaults to true), leaves every ledger entry unchanged,
while the full recomputation runs and the response reports every pending
change (its id and hash prefixes) computed by the repair loop. -/
theorem C6_dry_run_frame (db : V2.DB) (bStart : Option Nat) (bDry : Option Bool)
    (hdry : bDry = some true ∨ bDry = none) :
    (RepairAPI.onRequestPost db bStart bDry).1 = db ∧
    (∀ prevBlock,
      V2.byId db (jsOrNat bStart 141 - 1) = some prevBlock →
      ((V2.sortById db.rows).filter
        (fun b => decide (jsOrNat bStart 141 ≤ b.id))).isEmpty = false →
      (RepairAPI.onRequestPost db bStart bDry).2 =
        RepairAPI.RepairResp.dryRunReport
          (RepairAPI.repairCalc prevBlock.block_hash
            ((V2.sortById db.rows).filter
              (fun b => decide (jsOrNat bStart 141 ≤ b.id)))).length
          ((V2.sortById db.rows).filter
            (fun b => decide (jsOrNat bStart 141 ≤ b.id))).length
          ((RepairAPI.repairCalc prevBlock.block_hash
            ((V2.sortById db.rows).filter
              (fun b => decide (jsOrNat bStart 141 ≤ b.id)))).map
            RepairAPI.displayUpdate)) := by
  have hd : bDry.getD true = true := by rcases hdry with h | h <;> simp [h]
  constructor
  · rw [RepairAPI.onRequestPost]
    dsimp only
    split
    · rfl
    · split <;> rfl
  · intro pb hpb hne
    rw [RepairAPI.onRequestPost]
    dsimp only
    rw [if_neg (by simp [hne]), hpb]
    dsimp only
    rw [if_pos hd]

/-- Two-row ledger with placeholder hashes, used by the C6 witness. -/
def c6db : V2.DB :=
  ⟨[⟨1, "h1", "0", "a", none, none, none, some "success", none, "t1"⟩,
    ⟨2, "h2", "h1", "a2", none, none, none, some "success", none, "t2"⟩], 3⟩

/-- Witness for C6: a dry-run invocation with dryRun absent leaves the
concrete ledger unchanged. -/
theorem C6_dry_run_frame_witness :
    (RepairAPI.onRequestPost c6db (some 2) none).1 = c6db :=
  (C6_dry_run_frame c6db (some 2) none (Or.inr rfl)).1

/-- Claim C8 as stated is false: a repair invocation with start_id = 1 on the
empty ledger returns the 'No blocks to repair' success response, not an
error (the empty-result check precedes the anchor check). -/
theorem C8_start1_empty_cex :
    (RepairAPI.onRequestPost V2.emptyDB (some 1) (some false)).2 =
        RepairAPI.RepairResp.noBlocks ∧
      RepairAPI.RepairResp.isError
        (RepairAPI.onRequestPost V2.emptyDB (some 1) (some false)).2 = false ∧
      (RepairAPI.onRequestPost V2.emptyDB (some 1) (some false)).1 =
        V2.emptyDB := by
  decide

/-- Claim C8 amended: when the anchor entry at start_id - 1 is missing (after
the JS `|| 141` defaulting of start_id, which also replaces 0), the ledger is
never modified; the invocation fails with the missing-anchor error when some
entry has id at least start_id, and returns the no-blocks success response
when none does. -/
theorem C8_missing_anchor (db : V2.DB) (bStart : Option Nat) (bDry : Option Bool)
    (hanchor : V2.byId db (jsOrNat bStart 141 - 1) = none) :
    (RepairAPI.onRequestPost db bStart bDry).1 = db ∧
    (((V2.sortById db.rows).filter
        (fun b => decide (jsOrNat bStart 141 ≤ b.id))).isEmpty = false →
      (RepairAPI.onRequestPost db bStart bDry).2 =
        RepairAPI.RepairResp.missingAnchor) ∧
    (((V2.sortById db.rows).filter
        (fun b => decide (jsOrNat bStart 141 ≤ b.id))).isEmpty = true →
      (RepairAPI.onRequestPost db bStart bDry).2 =
        RepairAPI.RepairResp.noBlocks) := by
  refine ⟨?_, ?_, ?_⟩
  · rw [RepairAPI.onRequestPost]
    dsimp only
    split
    · rfl
    · rw [hanchor]
  · intro hne
    rw [RepairAPI.onRequestPost]
    dsimp only
    rw [if_neg (by simp [hne]), hanchor]
  · intro hemp
    rw [RepairAPI.onRequestPost]
    dsimp only
    rw [if_pos hemp]

/-- One-row ledger used by the C8 witness. -/
def c8db : V2.DB :=
  ⟨[⟨1, "h1", "0", "a", none, none, none, some "success", none, "t1"⟩], 2⟩

/-- Witness for the amended C8: start_id = 1 on a nonempty ledger hits the
missing anchor (id 0) and returns the error without modifying anything. -/
theorem C8_missing_anchor_witness :
    (RepairAPI.onRequestPost c8db (some 1) (some false)).1 = c8db ∧
    (RepairAPI.onRequestPost c8db (some 1) (some false)).2 =
      RepairAPI.RepairResp.missingAnchor :=
  ⟨(C8_missing_anchor c8db (some 1) (some false) (by decide)).1,
   (C8_missing_anchor c8db (some 1) (some false) (by decide)).2.1 (by decide)⟩

namespace RepairAPI

/-- A block after repair: prev_hash set to the running hash and block_hash
recomputed from the stored event fields. -/
def fixRow (prev : String) (b : V2.BlockchainLog) : V2.BlockchainLog :=
  { b with prev_hash := prev, block_hash := recomputeWith prev b }

/-- The chain the repair pass leaves on the rewritten range. -/
def repairFix (prev : String) : List V2.BlockchainLog → List V2.BlockchainLog
  | [] => []
  | b :: bs => fixRow prev b :: repairFix (recomputeWith prev b) bs

theorem fixRow_id (prev : String) (b : V2.BlockchainLog) :
    (fixRow prev b).id = b.id := by
  simp only [fixRow]

theorem fixRow_prev (prev : String) (b : V2.BlockchainLog) :
    (fixRow prev b).prev_hash = prev := by
  simp only [fixRow]

theorem fixRow_hash (prev : String) (b : V2.BlockchainLog) :
    (fixRow prev b).block_hash = recomputeWith prev b := by
  simp only [fixRow]

theorem fixRow_recompute (prev : String) (b : V2.BlockchainLog) :
    V2.recomputeHash (fixRow prev b) = recomputeWith prev b := by
  simp only [V2.recomputeHash, fixRow, recomputeWith]

theorem recomputeWith_fixRow (p2 prev : String) (b : V2.BlockchainLog) :
    recomputeWith p2 (fixRow prev b) = recomputeWith p2 b := by
  simp only [recomputeWith, fixRow]

theorem repairFix_verify :
    ∀ (bs : List V2.BlockchainLog) (prev : String),
      V2.verifyFrom prev (repairFix prev bs) = none := by
  intro bs
  induction bs with
  | nil => intro prev; rfl
  | cons b bs ih =>
    intro prev
    rw [repairFix]
    apply V2.verifyFrom_cons_none2.mpr
    refine ⟨fixRow_prev _ _, ?_, ?_⟩
    · rw [fixRow_recompute, fixRow_hash]
    · rw [fixRow_hash]
      exact ih _

theorem repairCalc_fixed :
    ∀ (bs : List V2.BlockchainLog) (prev : String),
      repairCalc prev (repairFix prev bs) = [] := by
  intro bs
  induction bs with
  | nil => intro prev; rfl
  | cons b bs ih =>
    intro prev
    rw [repairFix, repairCalc, recomputeWith_fixRow, fixRow_prev, fixRow_hash,
      if_neg (by simp)]
    exact ih _

theorem repairFix_ids :
    ∀ (bs : List V2.BlockchainLog) (prev : String),
      (repairFix prev bs).map (fun x => x.id) = bs.map (fun x => x.id) := by
  intro bs
  induction bs with
  | nil => intro prev; rfl
  | cons b bs ih =>
    intro prev
    rw [repairFix, List.map_cons, List.map_cons, ih, fixRow_id]

theorem repairCalc_ids :
    ∀ (bs : List V2.BlockchainLog) (prev : String),
      ∀ u ∈ repairCalc prev bs, u.id ∈ bs.map (fun x => x.id) := by
  intro bs
  induction bs with
  | nil => intro prev u hu; exact absurd hu (List.not_mem_nil u)
  | cons b bs ih =>
    intro prev u hu
    rw [repairCalc] at hu
    rw [List.map_cons]
    by_cases hc : b.prev_hash ≠ prev ∨ b.block_hash ≠ recomputeWith prev b
    · rw [if_pos hc] at hu
      rcases List.mem_cons.mp hu with rfl | hu'
      · exact List.mem_cons_self _ _
      · exact List.mem_cons_of_mem _ (ih _ u hu')
    · rw [if_neg hc] at hu
      exact List.mem_cons_of_mem _ (ih _ u hu)

theorem applyUpdate_skip {rows : List V2.BlockchainLog} {u : RepairUpdate}
    (h : ∀ x ∈ rows, x.id ≠ u.id) : applyUpdate rows u = rows :=
  list_map_self fun x hx => if_neg (h x hx)

theorem applyUpdate_append (xs ys : List V2.BlockchainLog) (u : RepairUpdate) :
    applyUpdate (xs ++ ys) u = applyUpdate xs u ++ applyUpdate ys u :=
  List.map_append _ xs ys

theorem applyUpdates_append_left {us : List RepairUpdate} :
    ∀ {pre bs : List V2.BlockchainLog},
      (∀ u ∈ us, ∀ x ∈ pre, x.id ≠ u.id) →
        applyUpdates (pre ++ bs) us = pre ++ applyUpdates bs us := by
  induction us with
  | nil => intro pre bs _; rfl
  | cons u us ih =>
    intro pre bs h
    show applyUpdates (applyUpdate (pre ++ bs) u) us =
      pre ++ applyUpdates (applyUpdate bs u) us
    rw [applyUpdate_append, applyUpdate_skip (h u (List.mem_cons_self u us))]
    exact ih fun v hv x hx => h v (List.mem_cons_of_mem u hv) x hx


theorem applyUpdates_repairCalc :
    ∀ (bs : List V2.BlockchainLog) (prev : String),
      (bs.map (fun x => x.id)).Nodup →
        applyUpdates bs (repairCalc prev bs) = repairFix prev bs := by
  intro bs
  induction bs with
  | nil => intro prev _; rfl
  | cons b bs ih =>
    intro prev hnd
    rw [List.map_cons, List.nodup_cons] at hnd
    obtain ⟨hb, hnd'⟩ := hnd
    have hb_ne : ∀ x ∈ bs, x.id ≠ b.id := by
      intro x hx he
      exact hb (he ▸ List.mem_map_of_mem (fun y => y.id) hx)
    have hus_ne : ∀ u ∈ repairCalc (recomputeWith prev b) bs, b.id ≠ u.id := by
      intro u hu he
      exact hb (he ▸ repairCalc_ids bs _ u hu)
    rw [repairCalc, repairFix]
    by_cases hc : b.prev_hash ≠ prev ∨ b.block_hash ≠ recomputeWith prev b
    · rw [if_pos hc]
      have hstep : applyUpdates (b :: bs)
          (⟨b.id, b.block_hash, recomputeWith prev b, b.prev_hash, prev⟩ ::
            repairCalc (recomputeWith prev b) bs) =
          applyUpdates (applyUpdate (b :: bs)
            ⟨b.id, b.block_hash, recomputeWith prev b, b.prev_hash, prev⟩)
            (repairCalc (recomputeWith prev b) bs) := by
        simp only [applyUpdates, List.foldl_cons]
      rw [hstep]
      have h1 : applyUpdate (b :: bs)
          ⟨b.id, b.block_hash, recomputeWith prev b, b.prev_hash, prev⟩ =
          fixRow prev b :: bs := by
        rw [applyUpdate, List.map_cons, if_pos rfl,
          list_map_self fun x hx => if_neg (hb_ne x hx)]
        rw [fixRow]
      rw [h1, ← List.singleton_append,
        applyUpdates_append_left (by
          intro u hu x hx
          rw [List.mem_singleton] at hx
          rw [hx, fixRow_id]
          exact hus_ne u hu),
        List.singleton_append, ih _ hnd']
    · rw [if_neg hc]
      push_neg at hc
      obtain ⟨hcp, hch⟩ := hc
      have hfix : fixRow prev b = b := by
        rw [fixRow, ← hch, ← hcp]
      rw [hfix, ← List.singleton_append,
        applyUpdates_append_left (by
          intro u hu x hx
          rw [List.mem_singleton] at hx
          rw [hx]
          exact hus_ne u hu),
        List.singleton_append, ih _ hnd']

end RepairAPI

namespace V2

theorem getLast_max :
    ∀ {l : List BlockchainLog},
      l.Pairwise (fun a b => a.id < b.id) → ∀ (hne : l ≠ []),
      ∀ x ∈ l, x.id ≤ (l.getLast hne).id := by
  intro l
  induction l with
  | nil => intro _ hne; exact absurd rfl hne
  | cons y ys ih =>
    intro h hne x hx
    cases ys with
    | nil =>
      rcases List.mem_cons.mp hx with rfl | hx'
      · exact Nat.le_refl _
      · exact absurd hx' (List.not_mem_nil x)
    | cons z zs =>
      rw [List.getLast_cons (List.cons_ne_nil z zs)]
      rcases List.mem_cons.mp hx with rfl | hx'
      · have h1 : x.id < z.id :=
          (List.pairwise_cons.mp h).1 z (List.mem_cons_self z zs)
        have h2 : z.id ≤ ((z :: zs).getLast (List.cons_ne_nil z zs)).id :=
          ih (List.pairwise_cons.mp h).2 (List.cons_ne_nil z zs) z
            (List.mem_cons_self z zs)
        omega
      · exact ih (List.pairwise_cons.mp h).2 (List.cons_ne_nil z zs) x hx'

theorem eq_of_id_eq {l : List BlockchainLog}
    (hnd : (l.map (fun x => x.id)).Nodup) {x y : BlockchainLog}
    (hx : x ∈ l) (hy : y ∈ l) (hid : x.id = y.id) : x = y :=
  List.inj_on_of_nodup_map hnd hx hy hid

theorem pairwise_of_ids_eq {rows rows' : List BlockchainLog}
    (hids : rows.map (fun x => x.id) = rows'.map (fun x => x.id))
    (h : rows.Pairwise (fun a b => a.id < b.id)) :
    rows'.Pairwise (fun a b => a.id < b.id) := by
  have h1 : (rows.map (fun x => x.id)).Pairwise (· < ·) :=
    (List.pairwise_map).mpr h
  rw [hids] at h1
  exact (List.pairwise_map).mp h1

theorem filter_ge_split {pre rest : List BlockchainLog} {k : Nat}
    (hpre : ∀ x ∈ pre, x.id < k) (hrest : ∀ x ∈ rest, k ≤ x.id) :
    (pre ++ rest).filter (fun b => decide (k ≤ b.id)) = rest := by
  rw [List.filter_append]
  have h1 : pre.filter (fun b => decide (k ≤ b.id)) = [] := by
    rw [List.filter_eq_nil_iff]
    intro a ha
    simp [Nat.not_le.mpr (hpre a ha)]
  have h2 : rest.filter (fun b => decide (k ≤ b.id)) = rest := by
    rw [List.filter_eq_self]
    intro a ha
    simp [hrest a ha]
  rw [h1, h2, List.nil_append]

end V2

/-- Evaluation of a repair run on an already-repaired ledger: the blocks from
start id onward are exactly the repaired range, the recomputation finds no
pending change, so the ledger is untouched and zero changes are applied. -/
theorem repair_run2 {k : Nat} {pre suf : List V2.BlockchainLog}
    {b anchor : V2.BlockchainLog} {seq : Nat} {rows0 : List V2.BlockchainLog}
    (hjs : jsOrNat (some k) 141 = k)
    (hpw1 : (pre ++ RepairAPI.repairFix anchor.block_hash (b :: suf)).Pairwise
      (fun a b => a.id < b.id))
    (hpre_lt : ∀ x ∈ pre, x.id < k)
    (hrest_ge : ∀ x ∈ b :: suf, k ≤ x.id)
    (hids1 : (pre ++ RepairAPI.repairFix anchor.block_hash (b :: suf)).map
      (fun x => x.id) = rows0.map (fun x => x.id))
    (hnd : (rows0.map (fun x => x.id)).Nodup)
    (hanchor_pre : anchor ∈ pre)
    (hanchor_id : anchor.id = k - 1) :
    RepairAPI.onRequestPost
        ⟨pre ++ RepairAPI.repairFix anchor.block_hash (b :: suf), seq⟩
        (some k) (some false) =
      (⟨pre ++ RepairAPI.repairFix anchor.block_hash (b :: suf), seq⟩,
       RepairAPI.RepairResp.applied 0
         (RepairAPI.repairFix anchor.block_hash (b :: suf)).length k) := by
  have hfix_ge : ∀ x ∈ RepairAPI.repairFix anchor.block_hash (b :: suf),
      k ≤ x.id := by
    intro x hx
    have hmem : x.id ∈ (RepairAPI.repairFix anchor.block_hash
        (b :: suf)).map (fun y => y.id) := List.mem_map_of_mem _ hx
    rw [RepairAPI.repairFix_ids] at hmem
    obtain ⟨y, hy, hyid⟩ := List.mem_map.mp hmem
    exact hyid ▸ hrest_ge y hy
  have hnd1 : ((pre ++ RepairAPI.repairFix anchor.block_hash (b :: suf)).map
      (fun x => x.id)).Nodup := by
    rw [hids1]
    exact hnd
  have hfilter2 : (V2.sortById (pre ++ RepairAPI.repairFix anchor.block_hash
      (b :: suf))).filter (fun x => decide (k ≤ x.id)) =
      RepairAPI.repairFix anchor.block_hash (b :: suf) := by
    rw [V2.sortById_eq2 hpw1]
    exact V2.filter_ge_split hpre_lt hfix_ge
  have hanchor2 : V2.byId
      ⟨pre ++ RepairAPI.repairFix anchor.block_hash (b :: suf), seq⟩
      (k - 1) = some anchor := by
    rw [V2.byId]
    dsimp only
    rw [V2.sortById_eq2 hpw1]
    exact V2.find_by_id hnd1 (List.mem_append_left _ hanchor_pre) hanchor_id
  have hfix_cons : RepairAPI.repairFix anchor.block_hash (b :: suf) =
      RepairAPI.fixRow anchor.block_hash b ::
        RepairAPI.repairFix (RepairAPI.recomputeWith anchor.block_hash b)
          suf := by
    rw [RepairAPI.repairFix]
  rw [RepairAPI.onRequestPost]
  dsimp only
  rw [hjs, hfilter2, if_neg (by rw [hfix_cons]; simp), hanchor2]
  dsimp only
  rw [RepairAPI.repairCalc_fixed, if_neg (by simp)]
  rfl

/-- Claim C5 amended: for every corrupted ledger whose verify_chain reports
first invalid id k (with k at least 1 and the anchor entry k-1 present, the
spec's repair precondition), one repair_chain(k, dry_run=false) run makes a
subsequent verify_chain report valid over the same number of entries, and
running the identical repair a second time immediately afterwards leaves the
ledger unchanged and reports zero applied changes. -/
theorem C5_repair_idempotent (db : V2.DB) (k : Nat) (anchor : V2.BlockchainLog)
    (hpw : db.rows.Pairwise (fun a b => a.id < b.id))
    (hk : 1 ≤ k)
    (hv : V2.verifyChain db = ⟨false, db.rows.length, some k⟩)
    (hanchor : V2.byId db (k - 1) = some anchor) :
    V2.verifyChain (RepairAPI.onRequestPost db (some k) (some false)).1 =
        ⟨true, db.rows.length, none⟩ ∧
      (RepairAPI.onRequestPost
          (RepairAPI.onRequestPost db (some k) (some false)).1
          (some k) (some false)).1 =
        (RepairAPI.onRequestPost db (some k) (some false)).1 ∧
      ∃ m, (RepairAPI.onRequestPost
          (RepairAPI.onRequestPost db (some k) (some false)).1
          (some k) (some false)).2 =
        RepairAPI.RepairResp.applied 0 m k := by
  have hjs : jsOrNat (some k) 141 = k := by
    cases k with
    | zero => exact absurd hk (by decide)
    | succ m => rfl
  have hsort := V2.sortById_eq2 hpw
  rw [V2.verifyChain, hsort] at hv
  have hwalk : V2.verifyFrom "0" db.rows = some k := by
    cases hcase : V2.verifyFrom "0" db.rows with
    | none => rw [hcase] at hv; simp at hv
    | some i =>
      rw [hcase] at hv
      simp only [VerifyResult.mk.injEq] at hv
      exact hv.2.2
  obtain ⟨pre, b, suf, hsplit, hpre_none, hbk, _⟩ :=
    V2.verifyFrom_some_split hwalk
  have hpw2 := hpw
  rw [hsplit] at hpw2
  obtain ⟨hpreP, hbsufP, hcross⟩ := List.pairwise_append.mp hpw2
  have hb_lt_suf : ∀ x ∈ suf, b.id < x.id := (List.pairwise_cons.mp hbsufP).1
  have hpre_lt : ∀ x ∈ pre, x.id < k := fun x hx =>
    hbk ▸ hcross x hx b (List.mem_cons_self b suf)
  have hrest_ge : ∀ x ∈ b :: suf, k ≤ x.id := by
    intro x hx
    rcases List.mem_cons.mp hx with rfl | hx'
    · exact Nat.le_of_eq hbk.symm
    · exact Nat.le_of_lt (hbk ▸ hb_lt_suf x hx')
  have hnd : (db.rows.map (fun x => x.id)).Nodup :=
    ((List.pairwise_map).mpr hpw).imp fun h => Nat.ne_of_lt h
  have hanchor' : db.rows.find? (fun x => x.id == (k - 1)) = some anchor := by
    rw [V2.byId, hsort] at hanchor
    exact hanchor
  have hanchor_mem : anchor ∈ db.rows := List.mem_of_find?_eq_some hanchor'
  have hanchor_id : anchor.id = k - 1 := by
    have h := List.find?_some hanchor'
    simpa using h
  have hanchor_pre : anchor ∈ pre := by
    have hmem2 := hanchor_mem
    rw [hsplit] at hmem2
    rcases List.mem_append.mp hmem2 with h | h
    · exact h
    · exfalso
      have := hrest_ge anchor h
      omega
  have hpre_ne : pre ≠ [] := by
    intro h
    rw [h] at hanchor_pre
    exact absurd hanchor_pre (List.not_mem_nil _)
  have hlast_id : (pre.getLast hpre_ne).id = k - 1 := by
    have h1 := V2.getLast_max hpreP hpre_ne anchor hanchor_pre
    have h2 : (pre.getLast hpre_ne).id < k :=
      hpre_lt _ (List.getLast_mem hpre_ne)
    omega
  have hanchor_last : pre.getLast hpre_ne = anchor := by
    apply V2.eq_of_id_eq hnd
    · rw [hsplit]
      exact List.mem_append_left _ (List.getLast_mem hpre_ne)
    · exact hanchor_mem
    · rw [hlast_id, hanchor_id]
  have hah : V2.endHash "0" pre = anchor.block_hash := by
    rw [V2.endHash_getLast2 (List.getLast?_eq_getLast_of_ne_nil hpre_ne) "0",
      hanchor_last]
  have hfilter : (V2.sortById db.rows).filter (fun x => decide (k ≤ x.id)) =
      b :: suf := by
    rw [hsort, hsplit]
    exact V2.filter_ge_split hpre_lt hrest_ge
  have hnd_suf : ((b :: suf).map (fun x => x.id)).Nodup := by
    have h := hnd
    rw [hsplit, List.map_append] at h
    exact h.of_append_right
  have hrows1 : RepairAPI.applyUpdates db.rows
      (RepairAPI.repairCalc anchor.block_hash (b :: suf)) =
      pre ++ RepairAPI.repairFix anchor.block_hash (b :: suf) := by
    rw [hsplit, RepairAPI.applyUpdates_append_left (by
        intro u hu x hx
        have hu_id := RepairAPI.repairCalc_ids _ _ u hu
        obtain ⟨y, hy, hyid⟩ := List.mem_map.mp hu_id
        have hky : k ≤ u.id := hyid ▸ hrest_ge y hy
        have hx_lt := hpre_lt x hx
        omega),
      RepairAPI.applyUpdates_repairCalc _ _ hnd_suf]
  have hrun1 : RepairAPI.onRequestPost db (some k) (some false) =
      (⟨pre ++ RepairAPI.repairFix anchor.block_hash (b :: suf), db.seq⟩,
       RepairAPI.RepairResp.applied
         (RepairAPI.repairCalc anchor.block_hash (b :: suf)).length
         (b :: suf).length k) := by
    rw [RepairAPI.onRequestPost]
    dsimp only
    rw [hjs, hfilter, if_neg (by simp), hanchor]
    dsimp only
    rw [if_neg (by simp), hrows1]
  have hids1 : (pre ++ RepairAPI.repairFix anchor.block_hash (b :: suf)).map
      (fun x => x.id) = db.rows.map (fun x => x.id) := by
    rw [List.map_append, RepairAPI.repairFix_ids, hsplit, List.map_append]
  have hpw1 : (pre ++ RepairAPI.repairFix anchor.block_hash
      (b :: suf)).Pairwise (fun a b => a.id < b.id) :=
    V2.pairwise_of_ids_eq hids1.symm hpw
  have hlen1 : (pre ++ RepairAPI.repairFix anchor.block_hash
      (b :: suf)).length = db.rows.length := by
    have h := congrArg List.length hids1
    simpa using h
  refine ⟨?_, ?_, ?_⟩
  · rw [hrun1]
    show V2.verifyChain
      ⟨pre ++ RepairAPI.repairFix anchor.block_hash (b :: suf), db.seq⟩ = _
    rw [V2.verifyChain]
    dsimp only
    rw [V2.sortById_eq2 hpw1, V2.verifyFrom_append_none2 hpre_none, hah,
      RepairAPI.repairFix_verify, hlen1]
  · rw [hrun1]
    show (RepairAPI.onRequestPost
      ⟨pre ++ RepairAPI.repairFix anchor.block_hash (b :: suf), db.seq⟩
      (some k) (some false)).1 = _
    rw [repair_run2 hjs hpw1 hpre_lt hrest_ge hids1 hnd hanchor_pre hanchor_id]
  · refine ⟨(RepairAPI.repairFix anchor.block_hash (b :: suf)).length, ?_⟩
    rw [hrun1]
    show (RepairAPI.onRequestPost
      ⟨pre ++ RepairAPI.repairFix anchor.block_hash (b :: suf), db.seq⟩
      (some k) (some false)).2 = _
    rw [repair_run2 hjs hpw1 hpre_lt hrest_ge hids1 hnd hanchor_pre hanchor_id]

/-- Concrete three-entry ledger, entries built with real hashes; entry 2's
stored details were altered out-of-band after append. -/
def c5r1 : V2.BlockchainLog :=
  ⟨1, V2.calculateBlockHash "0" "a1" (some "alice") (some "domain")
    (some "x.py.kg") (some "success") (some "d1") "t1",
   "0", "a1", some "alice", some "domain", some "x.py.kg", some "success",
   some "d1", "t1"⟩

def c5r2 : V2.BlockchainLog :=
  ⟨2, V2.calculateBlockHash c5r1.block_hash "a2" none none none
    (some "success") (some "d2") "t2",
   c5r1.block_hash, "a2", none, none, none, some "success",
   some "TAMPERED", "t2"⟩

def c5r3 : V2.BlockchainLog :=
  ⟨3, V2.calculateBlockHash c5r2.block_hash "a3" none none none
    (some "success") none "t3",
   c5r2.block_hash, "a3", none, none, none, some "success", none, "t3"⟩

def c5db : V2.DB := ⟨[c5r1, c5r2, c5r3], 4⟩

set_option maxRecDepth 1000000 in
/-- Witness for the amended C5 on the concrete corrupted ledger: repair from
the first invalid id 2, verify reports valid, and the repeated repair applies
zero changes. -/
theorem C5_repair_idempotent_witness :
    V2.verifyChain (RepairAPI.onRequestPost c5db (some 2) (some false)).1 =
        ⟨true, c5db.rows.length, none⟩ ∧
      (RepairAPI.onRequestPost
          (RepairAPI.onRequestPost c5db (some 2) (some false)).1
          (some 2) (some false)).1 =
        (RepairAPI.onRequestPost c5db (some 2) (some false)).1 ∧
      ∃ m, (RepairAPI.onRequestPost
          (RepairAPI.onRequestPost c5db (some 2) (some false)).1
          (some 2) (some false)).2 =
        RepairAPI.RepairResp.applied 0 m 2 :=
  C5_repair_idempotent c5db 2 c5r1 (by decide) (by decide) (by decide)
    (by decide)

/-! ## Machine: interleaved semantics of the V2 addBlockchainLog loop for the
concurrency claim. One process per record_event call; every database await of
the source (getLatestBlockHash read, INSERT, SELECT by hash, SELECT by id,
DELETE) is one atomic step against the shared table; the fault-free store is
assumed. -/

namespace Machine

/-- Control state of one append process between database calls. -/
inductive PSt where
  | fetch (attempt : Nat)
  | write (attempt : Nat) (prev : String)
  | findSelf (attempt : Nat) (bh : String)
  | checkPrev (attempt : Nat) (bh : String) (iid : Nat) (ibPrev : String)
  | racDel (attempt : Nat) (iid : Nat)
  | done (r : AddResult)
deriving DecidableEq

/-- One atomic step of a process running V2 addBlockchainLog: mirrors the
loop body between awaits; the timestamp of attempt a is tss[a]. -/
def step (params : V2.AddLogParams) (tss : List String) (st : PSt)
    (db : V2.DB) : PSt × V2.DB :=
  match st with
  | .fetch a => (.write a (V2.getLatestBlockHash db), db)
  | .write a prev =>
    let timestamp := tss.getD a ""
    let resultStr := params.result.getD "success"
    let blockHash := V2.calculateBlockHash prev params.action
      params.actorName params.targetType params.targetName
      (some resultStr) params.details timestamp
    (.findSelf a blockHash,
     V2.insertRow db ⟨0, blockHash, prev, params.action, params.actorName,
       params.targetType, params.targetName, some resultStr, params.details,
       timestamp⟩)
  | .findSelf a bh =>
    (match V2.firstByHash db bh with
     | none =>
       if a = V2.MAX_RETRIES - 1 then
         (.done ⟨false, none, some "Failed to verify inserted block"⟩, db)
       else (.fetch (a+1), db)
     | some insertedBlock =>
       if insertedBlock.id > 1 then
         (.checkPrev a bh insertedBlock.id insertedBlock.prev_hash, db)
       else (.done ⟨true, some bh, none⟩, db))
  | .checkPrev a bh iid ibPrev =>
    (match V2.byId db (iid - 1) with
     | some actualPrevBlock =>
       if actualPrevBlock.block_hash ≠ ibPrev then (.racDel a iid, db)
       else (.done ⟨true, some bh, none⟩, db)
     | none => (.done ⟨true, some bh, none⟩, db))
  | .racDel a iid =>
    if a < V2.MAX_RETRIES - 1 then (.fetch (a+1), V2.deleteById db iid)
    else (.done ⟨false, none,
      some "Max retries reached due to race conditions"⟩, V2.deleteById db iid)
  | .done r => (.done r, db)

/-- One append process: its call arguments, its per-attempt timestamps, and
its control state. -/
structure Proc where
  params : V2.AddLogParams
  tss : List String
  st : PSt
deriving DecidableEq

/-- Two concurrent record_event calls over the shared table. -/
structure Sys2 where
  a : Proc
  b : Proc
  db : V2.DB
deriving DecidableEq

def stepA (s : Sys2) : Sys2 :=
  ⟨{ s.a with st := (step s.a.params s.a.tss s.a.st s.db).1 }, s.b,
   (step s.a.params s.a.tss s.a.st s.db).2⟩

def stepB (s : Sys2) : Sys2 :=
  ⟨s.a, { s.b with st := (step s.b.params s.b.tss s.b.st s.db).1 },
   (step s.b.params s.b.tss s.b.st s.db).2⟩

/-- Run a schedule: false schedules process A, true schedules process B. -/
def runSched2 (s : Sys2) : List Bool → Sys2
  | [] => s
  | i :: rest => runSched2 (if i then stepB s else stepA s) rest

end Machine

/-- The canonical two-writer race schedule of Scenario D: both fetch the
genesis hash, A writes and succeeds, B writes, detects the race on re-reading
entry id-1, deletes its own row and retries from fetch, then succeeds. -/
def c3sched : List Bool :=
  [false, true, false, false,
   true, true, true, true,
   true, true, true, true, true]

/-- Concrete instance of the two racing calls. -/
def c3pA : Machine.Proc :=
  ⟨⟨"domain_register", some "alice", some "domain", some "a.py.kg", none,
    some "d1"⟩, ["2024-01-01T00:00:00.000Z"], Machine.PSt.fetch 0⟩

def c3pB : Machine.Proc :=
  ⟨⟨"user_ban", some "bob", some "user", some "carol", none, none⟩,
   ["2024-01-01T00:00:00.100Z", "2024-01-01T00:00:00.200Z"],
   Machine.PSt.fetch 0⟩

def c3run : Machine.Sys2 :=
  Machine.runSched2 ⟨c3pA, c3pB, V2.emptyDB⟩ c3sched

set_option maxRecDepth 1000000 in
/-- Claim C3 as stated is false at N = 2: under the canonical racing
interleaving both concurrent record_event calls complete successfully and
the ledger holds exactly 2 entries forming a valid chain, but their sequence
ids are 1 and 3, not 1..2: the raced entry id 2 was deleted by VerifyLink and
AUTOINCREMENT never reuses it. -/
theorem C3_race_id_gap_cex :
    c3run.db.rows.map (fun b => b.id) = [1, 3] ∧
      ([1, 3] : List Nat) ≠ [1, 2] ∧
      c3run.db.rows.length = 2 ∧
      (match c3run.a.st with
       | Machine.PSt.done r => r.success
       | _ => false) = true ∧
      (match c3run.b.st with
       | Machine.PSt.done r => r.success
       | _ => false) = true ∧
      V2.verifyChain c3run.db = ⟨true, 2, none⟩ := by
  decide

namespace Machine

/-- The block hash the write step computes from the fetched previous hash,
the call arguments and the attempt timestamp. -/
def hashOf (prev : String) (p : V2.AddLogParams) (ts : String) : String :=
  V2.calculateBlockHash prev p.action p.actorName p.targetType p.targetName
    (some (p.result.getD "success")) p.details ts

/-- Folding rule keeping computed hashes in compact hashOf form. -/
theorem hashOf_eq (prev : String) (p : V2.AddLogParams) (ts : String) :
    V2.calculateBlockHash prev p.action p.actorName p.targetType p.targetName
      (some (p.result.getD "success")) p.details ts = hashOf prev p ts := rfl

end Machine

namespace Machine

theorem runA (s : Sys2) (rest : List Bool) :
    runSched2 s (false :: rest) = runSched2 (stepA s) rest := rfl

theorem runB (s : Sys2) (rest : List Bool) :
    runSched2 s (true :: rest) = runSched2 (stepB s) rest := rfl

end Machine

def c3rowA (p : V2.AddLogParams) (ts : String) : V2.BlockchainLog :=
  ⟨1, Machine.hashOf "0" p ts, "0", p.action, p.actorName, p.targetType,
   p.targetName, some (p.result.getD "success"), p.details, ts⟩

def c3rowB1 (p : V2.AddLogParams) (ts : String) : V2.BlockchainLog :=
  ⟨2, Machine.hashOf "0" p ts, "0", p.action, p.actorName, p.targetType,
   p.targetName, some (p.result.getD "success"), p.details, ts⟩

def c3rowB2 (prev : String) (p : V2.AddLogParams) (ts : String) :
    V2.BlockchainLog :=
  ⟨3, Machine.hashOf prev p ts, prev, p.action, p.actorName, p.targetType,
   p.targetName, some (p.result.getD "success"), p.details, ts⟩

theorem c3step1 (pA pB : V2.AddLogParams) (tsA tsB0 tsB1 : String) :
    Machine.stepA ⟨⟨pA, [tsA], Machine.PSt.fetch 0⟩,
      ⟨pB, [tsB0, tsB1], Machine.PSt.fetch 0⟩, V2.emptyDB⟩ =
      ⟨⟨pA, [tsA], Machine.PSt.write 0 "0"⟩,
       ⟨pB, [tsB0, tsB1], Machine.PSt.fetch 0⟩, V2.emptyDB⟩ := rfl

theorem c3step3 (pA pB : V2.AddLogParams) (tsA tsB0 tsB1 : String) :
    Machine.stepA ⟨⟨pA, [tsA], Machine.PSt.write 0 "0"⟩,
      ⟨pB, [tsB0, tsB1], Machine.PSt.write 0 "0"⟩, V2.emptyDB⟩ =
      ⟨⟨pA, [tsA], Machine.PSt.findSelf 0 (Machine.hashOf "0" pA tsA)⟩,
       ⟨pB, [tsB0, tsB1], Machine.PSt.write 0 "0"⟩,
       ⟨[c3rowA pA tsA], 2⟩⟩ := rfl

theorem c3step5 (pA pB : V2.AddLogParams) (tsA tsB0 tsB1 : String) :
    Machine.stepB ⟨⟨pA, [tsA], Machine.PSt.done
      ⟨true, some (Machine.hashOf "0" pA tsA), none⟩⟩,
      ⟨pB, [tsB0, tsB1], Machine.PSt.write 0 "0"⟩, ⟨[c3rowA pA tsA], 2⟩⟩ =
      ⟨⟨pA, [tsA], Machine.PSt.done
        ⟨true, some (Machine.hashOf "0" pA tsA), none⟩⟩,
       ⟨pB, [tsB0, tsB1],
        Machine.PSt.findSelf 0 (Machine.hashOf "0" pB tsB0)⟩,
       ⟨[c3rowA pA tsA, c3rowB1 pB tsB0], 3⟩⟩ := rfl

theorem c3step10 (pA pB : V2.AddLogParams) (tsA tsB0 tsB1 : String) :
    Machine.stepB ⟨⟨pA, [tsA], Machine.PSt.done
      ⟨true, some (Machine.hashOf "0" pA tsA), none⟩⟩,
      ⟨pB, [tsB0, tsB1],
       Machine.PSt.write 1 (Machine.hashOf "0" pA tsA)⟩,
      ⟨[c3rowA pA tsA], 3⟩⟩ =
      ⟨⟨pA, [tsA], Machine.PSt.done
        ⟨true, some (Machine.hashOf "0" pA tsA), none⟩⟩,
       ⟨pB, [tsB0, tsB1], Machine.PSt.findSelf 1
        (Machine.hashOf (Machine.hashOf "0" pA tsA) pB tsB1)⟩,
       ⟨[c3rowA pA tsA,
         c3rowB2 (Machine.hashOf "0" pA tsA) pB tsB1], 4⟩⟩ := rfl

theorem c3step13 (pA pB : V2.AddLogParams) (tsA tsB0 tsB1 : String) :
    Machine.stepB ⟨⟨pA, [tsA], Machine.PSt.done
      ⟨true, some (Machine.hashOf "0" pA tsA), none⟩⟩,
      ⟨pB, [tsB0, tsB1], Machine.PSt.done
       ⟨true, some (Machine.hashOf (Machine.hashOf "0" pA tsA) pB tsB1),
        none⟩⟩,
      ⟨[c3rowA pA tsA,
        c3rowB2 (Machine.hashOf "0" pA tsA) pB tsB1], 4⟩⟩ =
      ⟨⟨pA, [tsA], Machine.PSt.done
        ⟨true, some (Machine.hashOf "0" pA tsA), none⟩⟩,
       ⟨pB, [tsB0, tsB1], Machine.PSt.done
        ⟨true, some (Machine.hashOf (Machine.hashOf "0" pA tsA) pB tsB1),
         none⟩⟩,
       ⟨[c3rowA pA tsA,
         c3rowB2 (Machine.hashOf "0" pA tsA) pB tsB1], 4⟩⟩ := rfl

theorem c3step4 (pA pB : V2.AddLogParams) (tsA tsB0 tsB1 : String) :
    Machine.stepA ⟨⟨pA, [tsA],
      Machine.PSt.findSelf 0 (Machine.hashOf "0" pA tsA)⟩,
      ⟨pB, [tsB0, tsB1], Machine.PSt.write 0 "0"⟩, ⟨[c3rowA pA tsA], 2⟩⟩ =
      ⟨⟨pA, [tsA], Machine.PSt.done
        ⟨true, some (Machine.hashOf "0" pA tsA), none⟩⟩,
       ⟨pB, [tsB0, tsB1], Machine.PSt.write 0 "0"⟩,
       ⟨[c3rowA pA tsA], 2⟩⟩ := by
  simp [Machine.stepA, Machine.step, V2.firstByHash, V2.sortById,
    List.insertionSort, List.orderedInsert, List.find?, c3rowA]

theorem c3step6 (pA pB : V2.AddLogParams) (tsA tsB0 tsB1 : String)
    (b1 : (Machine.hashOf "0" pA tsA == Machine.hashOf "0" pB tsB0) =
      false) :
    Machine.stepB ⟨⟨pA, [tsA], Machine.PSt.done
      ⟨true, some (Machine.hashOf "0" pA tsA), none⟩⟩,
      ⟨pB, [tsB0, tsB1],
       Machine.PSt.findSelf 0 (Machine.hashOf "0" pB tsB0)⟩,
      ⟨[c3rowA pA tsA, c3rowB1 pB tsB0], 3⟩⟩ =
      ⟨⟨pA, [tsA], Machine.PSt.done
        ⟨true, some (Machine.hashOf "0" pA tsA), none⟩⟩,
       ⟨pB, [tsB0, tsB1],
        Machine.PSt.checkPrev 0 (Machine.hashOf "0" pB tsB0) 2 "0"⟩,
       ⟨[c3rowA pA tsA, c3rowB1 pB tsB0], 3⟩⟩ := by
  simp [Machine.stepB, Machine.step, V2.firstByHash, V2.sortById,
    List.insertionSort, List.orderedInsert, List.find?, c3rowA, c3rowB1,
    b1]

theorem c3step7 (pA pB : V2.AddLogParams) (tsA tsB0 tsB1 : String)
    (z0 : Machine.hashOf "0" pA tsA ≠ "0") :
    Machine.stepB ⟨⟨pA, [tsA], Machine.PSt.done
      ⟨true, some (Machine.hashOf "0" pA tsA), none⟩⟩,
      ⟨pB, [tsB0, tsB1],
       Machine.PSt.checkPrev 0 (Machine.hashOf "0" pB tsB0) 2 "0"⟩,
      ⟨[c3rowA pA tsA, c3rowB1 pB tsB0], 3⟩⟩ =
      ⟨⟨pA, [tsA], Machine.PSt.done
        ⟨true, some (Machine.hashOf "0" pA tsA), none⟩⟩,
       ⟨pB, [tsB0, tsB1], Machine.PSt.racDel 0 2⟩,
       ⟨[c3rowA pA tsA, c3rowB1 pB tsB0], 3⟩⟩ := by
  simp [Machine.stepB, Machine.step, V2.byId, V2.sortById,
    List.insertionSort, List.orderedInsert, List.find?, c3rowA, c3rowB1,
    z0]

theorem c3step8 (pA pB : V2.AddLogParams) (tsA tsB0 tsB1 : String) :
    Machine.stepB ⟨⟨pA, [tsA], Machine.PSt.done
      ⟨true, some (Machine.hashOf "0" pA tsA), none⟩⟩,
      ⟨pB, [tsB0, tsB1], Machine.PSt.racDel 0 2⟩,
      ⟨[c3rowA pA tsA, c3rowB1 pB tsB0], 3⟩⟩ =
      ⟨⟨pA, [tsA], Machine.PSt.done
        ⟨true, some (Machine.hashOf "0" pA tsA), none⟩⟩,
       ⟨pB, [tsB0, tsB1], Machine.PSt.fetch 1⟩,
       ⟨[c3rowA pA tsA], 3⟩⟩ := by
  simp [Machine.stepB, Machine.step, V2.deleteById, V2.MAX_RETRIES,
    c3rowA, c3rowB1, List.filter]

theorem c3step9 (pA pB : V2.AddLogParams) (tsA tsB0 tsB1 : String)
    (e0 : Machine.hashOf "0" pA tsA ≠ "") :
    Machine.stepB ⟨⟨pA, [tsA], Machine.PSt.done
      ⟨true, some (Machine.hashOf "0" pA tsA), none⟩⟩,
      ⟨pB, [tsB0, tsB1], Machine.PSt.fetch 1⟩, ⟨[c3rowA pA tsA], 3⟩⟩ =
      ⟨⟨pA, [tsA], Machine.PSt.done
        ⟨true, some (Machine.hashOf "0" pA tsA), none⟩⟩,
       ⟨pB, [tsB0, tsB1],
        Machine.PSt.write 1 (Machine.hashOf "0" pA tsA)⟩,
       ⟨[c3rowA pA tsA], 3⟩⟩ := by
  simp [Machine.stepB, Machine.step, V2.getLatestBlockHash, V2.sortById,
    List.insertionSort, List.orderedInsert, c3rowA, e0]

theorem c3step11 (pA pB : V2.AddLogParams) (tsA tsB0 tsB1 : String)
    (b2 : (Machine.hashOf "0" pA tsA ==
      Machine.hashOf (Machine.hashOf "0" pA tsA) pB tsB1) = false) :
    Machine.stepB ⟨⟨pA, [tsA], Machine.PSt.done
      ⟨true, some (Machine.hashOf "0" pA tsA), none⟩⟩,
      ⟨pB, [tsB0, tsB1], Machine.PSt.findSelf 1
       (Machine.hashOf (Machine.hashOf "0" pA tsA) pB tsB1)⟩,
      ⟨[c3rowA pA tsA,
        c3rowB2 (Machine.hashOf "0" pA tsA) pB tsB1], 4⟩⟩ =
      ⟨⟨pA, [tsA], Machine.PSt.done
        ⟨true, some (Machine.hashOf "0" pA tsA), none⟩⟩,
       ⟨pB, [tsB0, tsB1], Machine.PSt.checkPrev 1
        (Machine.hashOf (Machine.hashOf "0" pA tsA) pB tsB1) 3
        (Machine.hashOf "0" pA tsA)⟩,
       ⟨[c3rowA pA tsA,
         c3rowB2 (Machine.hashOf "0" pA tsA) pB tsB1], 4⟩⟩ := by
  simp [Machine.stepB, Machine.step, V2.firstByHash, V2.sortById,
    List.insertionSort, List.orderedInsert, List.find?, c3rowA, c3rowB2,
    b2]

theorem c3step12 (pA pB : V2.AddLogParams) (tsA tsB0 tsB1 : String) :
    Machine.stepB ⟨⟨pA, [tsA], Machine.PSt.done
      ⟨true, some (Machine.hashOf "0" pA tsA), none⟩⟩,
      ⟨pB, [tsB0, tsB1], Machine.PSt.checkPrev 1
       (Machine.hashOf (Machine.hashOf "0" pA tsA) pB tsB1) 3
       (Machine.hashOf "0" pA tsA)⟩,
      ⟨[c3rowA pA tsA,
        c3rowB2 (Machine.hashOf "0" pA tsA) pB tsB1], 4⟩⟩ =
      ⟨⟨pA, [tsA], Machine.PSt.done
        ⟨true, some (Machine.hashOf "0" pA tsA), none⟩⟩,
       ⟨pB, [tsB0, tsB1], Machine.PSt.done
        ⟨true, some (Machine.hashOf (Machine.hashOf "0" pA tsA) pB tsB1),
         none⟩⟩,
       ⟨[c3rowA pA tsA,
         c3rowB2 (Machine.hashOf "0" pA tsA) pB tsB1], 4⟩⟩ := by
  simp [Machine.stepB, Machine.step, V2.byId, V2.sortById,
    List.insertionSort, List.orderedInsert, List.find?, c3rowA, c3rowB2]

theorem c3step2 (pA pB : V2.AddLogParams) (tsA tsB0 tsB1 : String) :
    Machine.stepB ⟨⟨pA, [tsA], Machine.PSt.write 0 "0"⟩,
      ⟨pB, [tsB0, tsB1], Machine.PSt.fetch 0⟩, V2.emptyDB⟩ =
      ⟨⟨pA, [tsA], Machine.PSt.write 0 "0"⟩,
       ⟨pB, [tsB0, tsB1], Machine.PSt.write 0 "0"⟩, V2.emptyDB⟩ := rfl

theorem c3run8 (pA pB : V2.AddLogParams) (tsA tsB0 tsB1 : String)
    (b1 : (Machine.hashOf "0" pA tsA == Machine.hashOf "0" pB tsB0) =
      false)
    (z0 : Machine.hashOf "0" pA tsA ≠ "0") :
    Machine.runSched2 ⟨⟨pA, [tsA], Machine.PSt.fetch 0⟩,
      ⟨pB, [tsB0, tsB1], Machine.PSt.fetch 0⟩, V2.emptyDB⟩
      [false, true, false, false, true, true, true, true] =
      ⟨⟨pA, [tsA], Machine.PSt.done
        ⟨true, some (Machine.hashOf "0" pA tsA), none⟩⟩,
       ⟨pB, [tsB0, tsB1], Machine.PSt.fetch 1⟩,
       ⟨[c3rowA pA tsA], 3⟩⟩ := by
  rw [Machine.runA, c3step1, Machine.runB, c3step2, Machine.runA, c3step3, Machine.runA,
    c3step4, Machine.runB, c3step5, Machine.runB, c3step6 pA pB tsA tsB0 tsB1 b1,
    Machine.runB, c3step7 pA pB tsA tsB0 tsB1 z0, Machine.runB, c3step8]
  rfl

theorem c3runFull (pA pB : V2.AddLogParams) (tsA tsB0 tsB1 : String)
    (b1 : (Machine.hashOf "0" pA tsA == Machine.hashOf "0" pB tsB0) =
      false)
    (b2 : (Machine.hashOf "0" pA tsA ==
      Machine.hashOf (Machine.hashOf "0" pA tsA) pB tsB1) = false)
    (z0 : Machine.hashOf "0" pA tsA ≠ "0")
    (e0 : Machine.hashOf "0" pA tsA ≠ "") :
    Machine.runSched2 ⟨⟨pA, [tsA], Machine.PSt.fetch 0⟩,
      ⟨pB, [tsB0, tsB1], Machine.PSt.fetch 0⟩, V2.emptyDB⟩ c3sched =
      ⟨⟨pA, [tsA], Machine.PSt.done
        ⟨true, some (Machine.hashOf "0" pA tsA), none⟩⟩,
       ⟨pB, [tsB0, tsB1], Machine.PSt.done
        ⟨true, some (Machine.hashOf (Machine.hashOf "0" pA tsA) pB tsB1),
         none⟩⟩,
       ⟨[c3rowA pA tsA,
         c3rowB2 (Machine.hashOf "0" pA tsA) pB tsB1], 4⟩⟩ := by
  rw [c3sched, Machine.runA, c3step1, Machine.runB, c3step2, Machine.runA, c3step3,
    Machine.runA, c3step4, Machine.runB, c3step5, Machine.runB,
    c3step6 pA pB tsA tsB0 tsB1 b1, Machine.runB, c3step7 pA pB tsA tsB0 tsB1 z0,
    Machine.runB, c3step8, Machine.runB, c3step9 pA pB tsA tsB0 tsB1 e0,
    Machine.runB, c3step10, Machine.runB, c3step11 pA pB tsA tsB0 tsB1 b2,
    Machine.runB, c3step12, Machine.runB, c3step13]
  rfl

theorem c3sorted (pA pB : V2.AddLogParams) (tsA tsB1 : String) :
    V2.sortById [c3rowA pA tsA,
      c3rowB2 (Machine.hashOf "0" pA tsA) pB tsB1] =
      [c3rowA pA tsA, c3rowB2 (Machine.hashOf "0" pA tsA) pB tsB1] := by
  simp [V2.sortById, List.insertionSort, List.orderedInsert, c3rowA,
    c3rowB2]

theorem c3rec1 (pA : V2.AddLogParams) (tsA : String) :
    V2.recomputeHash (c3rowA pA tsA) = (c3rowA pA tsA).block_hash := by
  simp only [V2.recomputeHash, c3rowA, Machine.hashOf]

theorem c3rec3 (pA pB : V2.AddLogParams) (tsA tsB1 : String) :
    V2.recomputeHash (c3rowB2 (Machine.hashOf "0" pA tsA) pB tsB1) =
      (c3rowB2 (Machine.hashOf "0" pA tsA) pB tsB1).block_hash := by
  simp only [V2.recomputeHash, c3rowB2, Machine.hashOf]

theorem c3walk (pA pB : V2.AddLogParams) (tsA tsB1 : String) :
    V2.verifyFrom "0" [c3rowA pA tsA,
      c3rowB2 (Machine.hashOf "0" pA tsA) pB tsB1] = none := by
  apply V2.verifyFrom_cons_none2.mpr
  refine ⟨rfl, c3rec1 pA tsA, ?_⟩
  apply V2.verifyFrom_cons_none2.mpr
  exact ⟨rfl, c3rec3 pA pB tsA tsB1, rfl⟩

theorem hashOf_ne_zero (prev : String) (p : V2.AddLogParams)
    (ts : String) : Machine.hashOf prev p ts ≠ "0" := by
  simp only [Machine.hashOf, V2.calculateBlockHash]
  exact sha256hex_ne_zero _

theorem hashOf_ne_empty (prev : String) (p : V2.AddLogParams)
    (ts : String) : Machine.hashOf prev p ts ≠ "" := by
  simp only [Machine.hashOf, V2.calculateBlockHash]
  exact sha256hex_ne_empty _

/-- Claim C3 amended: when two concurrent record_event calls race on the
same fetched previous hash (their computed block hashes pairwise distinct,
which any distinct payloads or timestamps give), both calls return success
and the final ledger verifies as a valid chain holding exactly one entry per
call, but the entry ids are strictly increasing yet non-contiguous (1 and 3,
not 1 and 2): the losing call detects the race by re-reading the entry below
its own, deletes its raced row (whose AUTOINCREMENT id 2 is never reused)
and retries from a fresh fetch, as the intermediate state after its delete
step shows (only id 1 present, loser back at fetch with attempt 1). -/
theorem C3_race_retry (pA pB : V2.AddLogParams) (tsA tsB0 tsB1 : String)
    (h1 : Machine.hashOf "0" pA tsA ≠ Machine.hashOf "0" pB tsB0)
    (h2 : Machine.hashOf "0" pA tsA ≠
      Machine.hashOf (Machine.hashOf "0" pA tsA) pB tsB1) :
    (Machine.runSched2 ⟨⟨pA, [tsA], Machine.PSt.fetch 0⟩,
        ⟨pB, [tsB0, tsB1], Machine.PSt.fetch 0⟩, V2.emptyDB⟩ c3sched).a.st =
      Machine.PSt.done ⟨true, some (Machine.hashOf "0" pA tsA), none⟩ ∧
    (Machine.runSched2 ⟨⟨pA, [tsA], Machine.PSt.fetch 0⟩,
        ⟨pB, [tsB0, tsB1], Machine.PSt.fetch 0⟩, V2.emptyDB⟩ c3sched).b.st =
      Machine.PSt.done
        ⟨true, some (Machine.hashOf (Machine.hashOf "0" pA tsA) pB tsB1),
         none⟩ ∧
    (Machine.runSched2 ⟨⟨pA, [tsA], Machine.PSt.fetch 0⟩,
        ⟨pB, [tsB0, tsB1], Machine.PSt.fetch 0⟩, V2.emptyDB⟩
        c3sched).db.rows.map (fun x => x.id) = [1, 3] ∧
    V2.verifyChain (Machine.runSched2 ⟨⟨pA, [tsA], Machine.PSt.fetch 0⟩,
        ⟨pB, [tsB0, tsB1], Machine.PSt.fetch 0⟩, V2.emptyDB⟩ c3sched).db =
      ⟨true, 2, none⟩ ∧
    (Machine.runSched2 ⟨⟨pA, [tsA], Machine.PSt.fetch 0⟩,
        ⟨pB, [tsB0, tsB1], Machine.PSt.fetch 0⟩, V2.emptyDB⟩
        [false, true, false, false, true, true, true, true]).b.st =
      Machine.PSt.fetch 1 ∧
    (Machine.runSched2 ⟨⟨pA, [tsA], Machine.PSt.fetch 0⟩,
        ⟨pB, [tsB0, tsB1], Machine.PSt.fetch 0⟩, V2.emptyDB⟩
        [false, true, false, false, true, true, true, true]).db.rows.map
      (fun x => x.id) = [1] := by
  have b1 : (Machine.hashOf "0" pA tsA == Machine.hashOf "0" pB tsB0) =
      false := beq_eq_false_iff_ne.mpr h1
  have b2 : (Machine.hashOf "0" pA tsA ==
      Machine.hashOf (Machine.hashOf "0" pA tsA) pB tsB1) = false :=
    beq_eq_false_iff_ne.mpr h2
  have z0 : Machine.hashOf "0" pA tsA ≠ "0" := hashOf_ne_zero _ _ _
  have e0 : Machine.hashOf "0" pA tsA ≠ "" := hashOf_ne_empty _ _ _
  have run := c3runFull pA pB tsA tsB0 tsB1 b1 b2 z0 e0
  have run8 := c3run8 pA pB tsA tsB0 tsB1 b1 z0
  refine ⟨?_, ?_, ?_, ?_, ?_, ?_⟩
  · rw [run]
  · rw [run]
  · rw [run]
    simp [c3rowA, c3rowB2]
  · rw [run]
    show V2.verifyChain ⟨[c3rowA pA tsA,
      c3rowB2 (Machine.hashOf "0" pA tsA) pB tsB1], 4⟩ = _
    rw [V2.verifyChain]
    dsimp only
    rw [c3sorted pA pB tsA tsB1, c3walk pA pB tsA tsB1]
    rfl
  · rw [run8]
  · rw [run8]
    simp [c3rowA]

def c3wA : V2.AddLogParams :=
  ⟨"domain_register", some "alice", some "domain", some "a.py.kg", none,
   some "d1"⟩

def c3wB : V2.AddLogParams :=
  ⟨"user_ban", some "bob", some "user", some "carol", none, none⟩

set_option maxRecDepth 1000000 in
/-- Concrete instance of the amended C3 race: distinct payloads give distinct
hashes, and the raced run ends with ids 1 and 3. -/
theorem C3_race_retry_witness :
    (Machine.runSched2 ⟨⟨c3wA, ["2024-02-01T00:00:00.000Z"],
        Machine.PSt.fetch 0⟩,
      ⟨c3wB, ["2024-02-01T00:00:00.100Z", "2024-02-01T00:00:00.200Z"],
        Machine.PSt.fetch 0⟩, V2.emptyDB⟩ c3sched).db.rows.map
      (fun x => x.id) = [1, 3] :=
  (C3_race_retry c3wA c3wB "2024-02-01T00:00:00.000Z"
    "2024-02-01T00:00:00.100Z" "2024-02-01T00:00:00.200Z"
    (by decide) (by decide)).2.2.1

set_option maxRecDepth 1000000 in
/-- Counterexample to unamended C5: on the ledger corrupted at id 2, a
repair run from the valid start id 3 (anchor id 2 exists) leaves the chain
invalid at 2, so repairing from an arbitrary valid start id does not
restore verifiability. -/
theorem C5_wrong_start_cex :
    V2.verifyChain (RepairAPI.onRequestPost c5db (some 3) (some false)).1 =
      ⟨false, 3, some 2⟩ := by
  decide

/-! ## src/functions/api/domains.ts: onRequestDelete, after authentication.
The Cloudflare DNS deletion only logs its error; within the try block the
domains DELETE and the users lookup can throw (mapped to the 500 response),
logAudit swallows its own error, and addBlockchainLog is the V1 call whose
returned result object the handler never reads. -/

namespace DomainsAPI

structure Domain where
  fqdn : String
  label : String
  status : String
  suspend_reason : Option String
deriving DecidableEq

/-- The JSON responses the handler can produce: errorResponse carries the
message and HTTP status, successResponse the deleted flag. -/
inductive Resp where
  | err (msg : String) (status : Nat)
  | ok (deleted : Bool)
deriving DecidableEq

/-- Inputs the handler consumes after authentication: the owner-domain
lookup result, one fault slot per throwing database call, the users-table
lookup value and the fault schedule handed to the ledger append. -/
structure DeleteCtx where
  domain : Option Domain
  deleteFault : Option String
  auditFault : Option String
  userFault : Option String
  username : Option String
  ledgerFaults : DbFaults
  ts : String
deriving DecidableEq

/-- DELETE /api/domains after requireAuth: returns the response, the ledger
state after the handler, and the discarded addBlockchainLog result when the
append was reached. -/
def onRequestDelete (ledger : V1.DB) (c : DeleteCtx) :
    Resp × V1.DB × Option AddResult :=
  match c.domain with
  | none => (.err "You do not have a registered domain" 404, ledger, none)
  | some domain =>
    if domain.status = "suspended" then
      (.err ("您的域名已被暂停，无法删除。暂停原因: " ++
        (jsTruthy domain.suspend_reason).getD "违规操作") 403, ledger, none)
    else if domain.status = "review" then
      (.err "您的域名正在审核中，无法删除。" 403, ledger, none)
    else
      match c.deleteFault with
      | some _ =>
        (.err "Failed to delete domain from database" 500, ledger, none)
      | none =>
        match c.userFault with
        | some _ =>
          (.err "Failed to delete domain from database" 500, ledger, none)
        | none =>
          (.ok true,
           (V1.addBlockchainLog ledger
             ⟨"domain_delete", jsTruthy c.username, some "domain",
              some domain.fqdn,
              some "\x7b\"deleted_by\":\"user\"\x7d"⟩ c.ts
             c.ledgerFaults).1,
           some (V1.addBlockchainLog ledger
             ⟨"domain_delete", jsTruthy c.username, some "domain",
              some domain.fqdn,
              some "\x7b\"deleted_by\":\"user\"\x7d"⟩ c.ts
             c.ledgerFaults).2.2)

end DomainsAPI

def c7domain : DomainsAPI.Domain := ⟨"x.py.kg", "x", "active", none⟩

def c7ctx : DomainsAPI.DeleteCtx :=
  ⟨some c7domain, none, none, none, some "alice",
   [some "SQLITE_ERROR: database is locked"], "2024-01-01T00:00:00.000Z"⟩

/-- Counterexample to C7: the domain delete on an empty ledger whose append
fails at the very first database call still answers success with
deleted set, the discarded append result records the failure, and the
ledger is left without any record of the deletion. -/
theorem C7_silent_skip_cex :
    (DomainsAPI.onRequestDelete V1.emptyDB c7ctx).1 =
      DomainsAPI.Resp.ok true ∧
    (DomainsAPI.onRequestDelete V1.emptyDB c7ctx).2.2 =
      some ⟨false, none, some "SQLITE_ERROR: database is locked"⟩ ∧
    (DomainsAPI.onRequestDelete V1.emptyDB c7ctx).2.1 = V1.emptyDB := by
  decide

/-- Claim C7 amended: whenever the delete handler reaches the ledger append
(domain present, neither suspended nor in review, the SQL delete and user
lookup do not throw), it answers the success response whatever the fault
schedule does to the append, and the append outcome it drops is exactly the
addBlockchainLog result for the deletion entry: append failures never
propagate to the caller. -/
theorem C7_ledger_failure_ignored (ledger : V1.DB)
    (c : DomainsAPI.DeleteCtx) (d : DomainsAPI.Domain)
    (hd : c.domain = some d) (hs : d.status ≠ "suspended")
    (hr : d.status ≠ "review") (hdel : c.deleteFault = none)
    (huser : c.userFault = none) :
    (DomainsAPI.onRequestDelete ledger c).1 = DomainsAPI.Resp.ok true ∧
    (DomainsAPI.onRequestDelete ledger c).2.2 =
      some (V1.addBlockchainLog ledger
        ⟨"domain_delete", jsTruthy c.username, some "domain", some d.fqdn,
         some "\x7b\"deleted_by\":\"user\"\x7d"⟩ c.ts
        c.ledgerFaults).2.2 := by
  simp only [DomainsAPI.onRequestDelete, hd, hdel, huser, if_neg hs,
    if_neg hr]
  exact ⟨trivial, trivial⟩

/-- Concrete instance of the amended C7: with the locked-database fault the
handler still answers success. -/
theorem C7_ledger_failure_ignored_witness :
    (DomainsAPI.onRequestDelete V1.emptyDB c7ctx).1 =
      DomainsAPI.Resp.ok true :=
  (C7_ledger_failure_ignored V1.emptyDB c7ctx c7domain rfl (by decide)
    (by decide) rfl rfl).1
